import Mathlib

/-! The generic containers of mam: the byte-keyed map and the record sets.

A shallow embedding of

* `mam/api/trit_t_to_mam_msg_read_context_t_map.c` (the map),
* `mam/mam/mam_endpoint_t_set.c` and `mam/psk/mam_psk_t_set.c` (the sets; the
  two files are the same text up to the name of the record type, so the set
  is embedded once, over a record type `T`),

followed by theorems about these definitions.

Conventions of the embedding.

* A pointer that a function tests against `NULL` is an `Option`; a pointer a
  function dereferences without a test is taken to be valid.
* A function that writes through a pointer returns the new pointee.
* The allocator is explicit state (`heap_t`), threaded through every function
  that calls `malloc` or `free`.
* A uthash table is the list of its entries in iteration order; the `NULL`
  head is the empty list; a pointer to an entry of a table is the position of
  the entry in that list.
-/

/-! ## Return codes -/

/-- The constants of `retcode_t` (common/errors.h) that the containers use. -/
inductive retcode_t where
  | RC_OK
  | RC_OOM
  | RC_NULL_PARAM
  deriving DecidableEq, Repr

open retcode_t

/-- Modelled from the spec: common/errors.h is not among the sources. The
conversion of a `retcode_t` to a C `bool`, as happens when a function declared
`bool` executes `return RC_NULL_PARAM;`: `RC_OK` is the zero of the
enumeration, the error codes are not zero. -/
def retcode_t.to_bool : retcode_t → Bool
  | RC_OK => false
  | RC_OOM => true
  | RC_NULL_PARAM => true

/-! ## The allocator -/

/-- The state of the allocator: `live` counts the blocks handed out by `malloc`
and not yet given back to `free`; `script` lists the outcomes of the coming
calls of `malloc` (`false`: the call returns `NULL`), and once the script is
used up every call succeeds. -/
structure heap_t where
  live : Nat
  script : List Bool
  deriving DecidableEq, Repr

/-- One call `malloc(n)`: whether a block was returned, and the new state. -/
def malloc (h : heap_t) : Bool × heap_t :=
  match h.script with
  | [] => (true, ⟨h.live + 1, []⟩)
  | true :: rest => (true, ⟨h.live + 1, rest⟩)
  | false :: rest => (false, ⟨h.live, rest⟩)

/-- One call `free(p)` on a live block. -/
def free (h : heap_t) : heap_t := ⟨h.live - 1, h.script⟩

/-- No coming call of `malloc` fails. -/
def heap_t.no_fail (h : heap_t) : Prop := ∀ b ∈ h.script, b = true

instance (h : heap_t) : Decidable h.no_fail := by
  unfold heap_t.no_fail; infer_instance

/-- The bytes `memcpy(dst, src, n)` leaves in `dst`: the first `n` of `src`. -/
def memcpy {α : Type} (src : List α) (n : Nat) : List α := src.take n

/-! ## uthash -/

/-- Modelled from the spec: uthash.h is not among the sources. `HASH_COUNT(head)`
is the number of entries of the table. -/
def HASH_COUNT {E : Type} (head : List E) : Nat := head.length

/-- Modelled from the spec: uthash.h is not among the sources. `HASH_ADD` /
`HASH_ADD_KEYPTR` link the entry `add` into the table without looking for an
entry of the same key; iteration order is insertion order, so the new entry is
the last one. -/
def HASH_ADD {E : Type} (head : List E) (add : E) : List E := head ++ [add]

/-- Modelled from the spec: uthash.h is not among the sources. `HASH_FIND`
yields a pointer to an entry whose key has the length and the bytes looked
for (`hit`), or `NULL`. An entry is put at the front of its bucket chain and
the chain is searched from the front, so of several entries of one key the
one added last is found. -/
def HASH_FIND {E : Type} (hit : E → Bool) : List E → Option Nat
  | [] => none
  | e :: rest =>
    match HASH_FIND hit rest with
    | some i => some (i + 1)
    | none => if hit e then some 0 else none

/-- Modelled from the spec: uthash.h is not among the sources. `HASH_DEL`
unlinks the entry `delptr` points to; the other entries keep their order. -/
def HASH_DEL {E : Type} (head : List E) (delptr : Nat) : List E := head.eraseIdx delptr

/-! ## The map `trit_t_to_mam_msg_read_context_t_map` -/

/-- Modelled from the spec: common/trinary/trits.h is not among the sources; a
`trit_t` occupies one byte, so a key of `key_size` bytes is `key_size` of them. -/
abbrev trit_t := Int

/-- One byte of a value buffer. -/
abbrev byte_t := Nat

/-- An entry of the map: the two buffers it owns (`UT_hash_handle hh` is the
place of the entry in the table). -/
structure trit_t_to_mam_msg_read_context_t_map_entry_t where
  key : List trit_t
  value : List byte_t
  deriving DecidableEq, Repr

/-- The map container. -/
structure trit_t_to_mam_msg_read_context_t_map_t where
  key_size : Nat
  value_size : Nat
  map : List trit_t_to_mam_msg_read_context_t_map_entry_t
  deriving DecidableEq, Repr

/-- What `HASH_FIND(hh, map->map, key, map->key_size, out)` compares: the key
of the entry has `key_size` bytes, equal to the first `key_size` bytes at `key`. -/
def map_key_hit (key : List trit_t) (key_size : Nat)
    (e : trit_t_to_mam_msg_read_context_t_map_entry_t) : Bool :=
  decide (e.key = memcpy key key_size)

def trit_t_to_mam_msg_read_context_t_map_init (key_size value_size : Nat) :
    retcode_t × trit_t_to_mam_msg_read_context_t_map_t :=
  (RC_OK, ⟨key_size, value_size, []⟩)

def trit_t_to_mam_msg_read_context_t_map_size
    (map : trit_t_to_mam_msg_read_context_t_map_t) : Nat :=
  HASH_COUNT map.map

/-- The three calls of `malloc` (entry, key buffer, value buffer) in the order
of the source; each failure returns at once, with nothing given back. -/
def trit_t_to_mam_msg_read_context_t_map_add (h : heap_t)
    (map : trit_t_to_mam_msg_read_context_t_map_t) (key : List trit_t)
    (value : List byte_t) :
    retcode_t × heap_t × trit_t_to_mam_msg_read_context_t_map_t :=
  match malloc h with
  | (false, h1) => (RC_OOM, h1, map)
  | (true, h1) =>
    match malloc h1 with
    | (false, h2) => (RC_OOM, h2, map)
    | (true, h2) =>
      match malloc h2 with
      | (false, h3) => (RC_OOM, h3, map)
      | (true, h3) =>
        (RC_OK, h3,
          ⟨map.key_size, map.value_size,
            HASH_ADD map.map ⟨memcpy key map.key_size, memcpy value map.value_size⟩⟩)

def trit_t_to_mam_msg_read_context_t_map_contains
    (map : Option trit_t_to_mam_msg_read_context_t_map_t) (key : List trit_t) : Bool :=
  match map with
  | none => false
  | some m =>
    if m.map.isEmpty then false
    else (HASH_FIND (map_key_hit key m.key_size) m.map).isSome

/-- The argument `res` is `none` for `res == NULL`, else the pointer stored in
the slot `*res` before the call; the second component of the result is the
slot after the call. -/
def trit_t_to_mam_msg_read_context_t_map_find
    (map : Option trit_t_to_mam_msg_read_context_t_map_t) (key : List trit_t)
    (res : Option (Option Nat)) : Bool × Option (Option Nat) :=
  match map with
  | none => (false, res)
  | some m =>
    if m.map.isEmpty then (false, res)
    else
      match res with
      | none => (RC_NULL_PARAM.to_bool, none)
      | some _ =>
        let out := HASH_FIND (map_key_hit key m.key_size) m.map
        (out.isSome, some out)

/-- The loop body of `free` runs once per entry: three calls of `free`. -/
def trit_t_to_mam_msg_read_context_t_map_free (h : heap_t)
    (map : trit_t_to_mam_msg_read_context_t_map_t) :
    retcode_t × heap_t × trit_t_to_mam_msg_read_context_t_map_t :=
  (RC_OK, map.map.foldl (fun hp _ => free (free (free hp))) h,
    ⟨map.key_size, map.value_size, []⟩)

def trit_t_to_mam_msg_read_context_t_map_cmp
    (lhs rhs : trit_t_to_mam_msg_read_context_t_map_t) : Bool :=
  if HASH_COUNT lhs.map ≠ HASH_COUNT rhs.map then false
  else lhs.map.all
    (fun curr_entry => trit_t_to_mam_msg_read_context_t_map_contains (some rhs) curr_entry.key)

def trit_t_to_mam_msg_read_context_t_map_remove_entry (h : heap_t)
    (map : trit_t_to_mam_msg_read_context_t_map_t) (entry : Option Nat) :
    retcode_t × heap_t × trit_t_to_mam_msg_read_context_t_map_t :=
  match entry with
  | some e =>
    (RC_OK, free (free (free h)), ⟨map.key_size, map.value_size, HASH_DEL map.map e⟩)
  | none => (RC_OK, h, map)

def trit_t_to_mam_msg_read_context_t_map_remove (h : heap_t)
    (map : Option trit_t_to_mam_msg_read_context_t_map_t) (key : List trit_t) :
    Bool × heap_t × Option trit_t_to_mam_msg_read_context_t_map_t :=
  match map with
  | none => (false, h, none)
  | some m =>
    if m.map.isEmpty then (false, h, some m)
    else
      let entry := HASH_FIND (map_key_hit key m.key_size) m.map
      let r := trit_t_to_mam_msg_read_context_t_map_remove_entry h m entry
      (entry.isSome, r.2.1, some r.2.2)

/-! ## The sets `mam_endpoint_t_set` and `mam_psk_t_set`

The record type (`mam_endpoint_t` of mam/mam/endpoint.h, `mam_psk_t` of
mam/psk/psk.h) is not among the sources: it is the parameter `T`, the
`sizeof(T)` bytes of a record, and equality on `T` is equality of these bytes. -/

/-- An entry of a set: the record it embeds. -/
structure mam_endpoint_t_set_entry_t (T : Type) where
  value : T
  deriving DecidableEq, Repr

/-- A set is the head pointer of its table: `typedef entry_t *set_t`. -/
abbrev mam_endpoint_t_set_t (T : Type) := List (mam_endpoint_t_set_entry_t T)

/-- What `HASH_FIND(hh, *set, value, sizeof(T), entry)` compares. -/
def set_value_hit {T : Type} [DecidableEq T] (value : T)
    (e : mam_endpoint_t_set_entry_t T) : Bool :=
  decide (e.value = value)

def mam_endpoint_t_set_size {T : Type} (set : mam_endpoint_t_set_t T) : Nat :=
  HASH_COUNT set

def mam_endpoint_t_set_contains {T : Type} [DecidableEq T]
    (set : mam_endpoint_t_set_t T) (value : T) : Bool :=
  if set.isEmpty then false
  else (HASH_FIND (set_value_hit value) set).isSome

def mam_endpoint_t_set_add {T : Type} [DecidableEq T] (h : heap_t)
    (set : mam_endpoint_t_set_t T) (value : T) :
    retcode_t × heap_t × mam_endpoint_t_set_t T :=
  if !mam_endpoint_t_set_contains set value then
    match malloc h with
    | (false, h1) => (RC_OOM, h1, set)
    | (true, h1) => (RC_OK, h1, HASH_ADD set ⟨value⟩)
  else (RC_OK, h, set)

def mam_endpoint_t_set_remove_entry {T : Type} (h : heap_t)
    (set : Option (mam_endpoint_t_set_t T)) (entry : Option Nat) :
    retcode_t × heap_t × Option (mam_endpoint_t_set_t T) :=
  match set, entry with
  | some s, some e =>
    if !s.isEmpty then (RC_OK, free h, some (HASH_DEL s e)) else (RC_OK, h, some s)
  | _, _ => (RC_OK, h, set)

def mam_endpoint_t_set_remove {T : Type} [DecidableEq T] (h : heap_t)
    (set : Option (mam_endpoint_t_set_t T)) (value : Option T) :
    retcode_t × heap_t × Option (mam_endpoint_t_set_t T) :=
  match set, value with
  | some s, some v =>
    if !s.isEmpty then
      mam_endpoint_t_set_remove_entry h (some s) (HASH_FIND (set_value_hit v) s)
    else (RC_OK, h, some s)
  | _, _ => (RC_OK, h, set)

/-- The loop `HASH_ITER(hh, *set1, iter, tmp)` of `append`, on the entries of
`*set1` still to visit. -/
def mam_endpoint_t_set_append_loop {T : Type} [DecidableEq T] (h : heap_t) :
    List (mam_endpoint_t_set_entry_t T) → mam_endpoint_t_set_t T →
    retcode_t × heap_t × mam_endpoint_t_set_t T
  | [], set2 => (RC_OK, h, set2)
  | iter :: tmp, set2 =>
    match mam_endpoint_t_set_add h set2 iter.value with
    | (RC_OK, h1, s2) => mam_endpoint_t_set_append_loop h1 tmp s2
    | (ret, h1, s2) => (ret, h1, s2)

/-- The set `*set1` is only read; the result holds the new `*set2`. -/
def mam_endpoint_t_set_append {T : Type} [DecidableEq T] (h : heap_t)
    (set1 set2 : mam_endpoint_t_set_t T) :
    retcode_t × heap_t × mam_endpoint_t_set_t T :=
  mam_endpoint_t_set_append_loop h set1 set2

/-- As for the map, `entry` is `none` for a `NULL` slot pointer, else the
content of the slot before the call. -/
def mam_endpoint_t_set_find {T : Type} [DecidableEq T]
    (set : mam_endpoint_t_set_t T) (value : T) (entry : Option (Option Nat)) :
    Bool × Option (Option Nat) :=
  if set.isEmpty then (false, entry)
  else
    match entry with
    | none => (RC_NULL_PARAM.to_bool, none)
    | some _ =>
      let out := HASH_FIND (set_value_hit value) set
      (out.isSome, some out)

def mam_endpoint_t_set_free {T : Type} (h : heap_t)
    (set : Option (mam_endpoint_t_set_t T)) : heap_t × Option (mam_endpoint_t_set_t T) :=
  match set with
  | none => (h, none)
  | some s =>
    if s.isEmpty then (h, some s)
    else (s.foldl (fun hp _ => free hp) h, some [])

/-- The loop of `for_each` on the entries still to visit. The callback `func`
takes the state of `container` and the record, and returns its code and the new
state of `container`. The last component of the result is the list of the
records `func` was called on, in order. -/
def mam_endpoint_t_set_for_each_loop {T σ : Type} (func : σ → T → retcode_t × σ) :
    List (mam_endpoint_t_set_entry_t T) → σ → retcode_t × σ × List T
  | [], container => (RC_OK, container, [])
  | curr_entry :: tmp_entry, container =>
    match func container curr_entry.value with
    | (RC_OK, c1) =>
      let r := mam_endpoint_t_set_for_each_loop func tmp_entry c1
      (r.1, r.2.1, curr_entry.value :: r.2.2)
    | (ret, c1) => (ret, c1, [curr_entry.value])

def mam_endpoint_t_set_for_each {T σ : Type} (set : mam_endpoint_t_set_t T)
    (func : σ → T → retcode_t × σ) (container : σ) : retcode_t × σ × List T :=
  mam_endpoint_t_set_for_each_loop func set container

def mam_endpoint_t_set_cmp {T : Type} [DecidableEq T]
    (lhs rhs : mam_endpoint_t_set_t T) : Bool :=
  if HASH_COUNT lhs ≠ HASH_COUNT rhs then false
  else lhs.all (fun curr_entry => mam_endpoint_t_set_contains rhs curr_entry.value)

/-! ## Sets and call sequences the statements range over -/

/-- The sets built from the empty set by the functions of the set that write
to one: `add`, `remove`, `remove_entry`, `append` (as its destination) and
`free`, under any behaviour of the allocator. -/
inductive set_reachable {T : Type} [DecidableEq T] : mam_endpoint_t_set_t T → Prop
  | empty : set_reachable []
  | add (h : heap_t) (s : mam_endpoint_t_set_t T) (v : T) :
      set_reachable s → set_reachable (mam_endpoint_t_set_add h s v).2.2
  | remove (h : heap_t) (s s1 : mam_endpoint_t_set_t T) (v : Option T) :
      set_reachable s → (mam_endpoint_t_set_remove h (some s) v).2.2 = some s1 →
      set_reachable s1
  | remove_entry (h : heap_t) (s s1 : mam_endpoint_t_set_t T) (e : Option Nat) :
      set_reachable s → (mam_endpoint_t_set_remove_entry h (some s) e).2.2 = some s1 →
      set_reachable s1
  | append (h : heap_t) (s1 s2 : mam_endpoint_t_set_t T) :
      set_reachable s1 → set_reachable s2 →
      set_reachable (mam_endpoint_t_set_append h s1 s2).2.2
  | free (h : heap_t) (s s1 : mam_endpoint_t_set_t T) :
      set_reachable s → (mam_endpoint_t_set_free h (some s)).2 = some s1 →
      set_reachable s1

/-- The state of the container after `func` returned `RC_OK` on each entry of
`l`, in order. -/
def container_after {T σ : Type} (func : σ → T → retcode_t × σ)
    (l : List (mam_endpoint_t_set_entry_t T)) (container : σ) : σ :=
  l.foldl (fun c e => (func c e.value).2) container

/-- One call on a map, in a sequence of calls. -/
inductive map_call where
  | add (key : List trit_t) (value : List byte_t)
  | remove (key : List trit_t)
  deriving DecidableEq, Repr

/-- What a sequence of calls leaves: the allocator, the map, the keys of the
calls of `add` and the number of calls of `remove` that returned true. -/
structure map_run_t where
  heap : heap_t
  map : trit_t_to_mam_msg_read_context_t_map_t
  added : List (List trit_t)
  removed : Nat
  deriving DecidableEq, Repr

/-- Runs the calls in order on the map of `st`. -/
def map_run : map_run_t → List map_call → map_run_t
  | st, [] => st
  | st, map_call.add key value :: rest =>
    let r := trit_t_to_mam_msg_read_context_t_map_add st.heap st.map key value
    map_run ⟨r.2.1, r.2.2, st.added ++ [memcpy key st.map.key_size], st.removed⟩ rest
  | st, map_call.remove key :: rest =>
    let r := trit_t_to_mam_msg_read_context_t_map_remove st.heap (some st.map) key
    map_run ⟨r.2.1, r.2.2.getD st.map, st.added, st.removed + (if r.1 then 1 else 0)⟩ rest

/-- The calls `add(set, v)` for the records `v` of a list, in order; each call
is made whatever the earlier ones returned. -/
def set_add_all {T : Type} [DecidableEq T] :
    heap_t → mam_endpoint_t_set_t T → List T → heap_t × mam_endpoint_t_set_t T
  | h, set, [] => (h, set)
  | h, set, v :: rest =>
    set_add_all (mam_endpoint_t_set_add h set v).2.1 (mam_endpoint_t_set_add h set v).2.2 rest

/-! ## Lemmas on the table operations -/

theorem HASH_FIND_isSome {E : Type} (hit : E → Bool) (l : List E) :
    (HASH_FIND hit l).isSome = l.any hit := by
  induction l with
  | nil => rfl
  | cons e rest ih =>
    simp only [HASH_FIND, List.any_cons]
    cases hr : HASH_FIND hit rest with
    | some i =>
      rw [hr] at ih
      simp only [Option.isSome_some] at ih ⊢
      rw [← ih]; simp
    | none =>
      rw [hr] at ih
      simp only [Option.isSome_none] at ih
      rw [← ih]
      cases hit e <;> simp

theorem HASH_FIND_eq_none {E : Type} (hit : E → Bool) (l : List E) :
    HASH_FIND hit l = none ↔ ∀ e ∈ l, hit e = false := by
  have h := HASH_FIND_isSome hit l
  cases hf : HASH_FIND hit l with
  | none =>
    rw [hf] at h
    simp only [true_iff]
    intro e he
    by_contra hc
    have : l.any hit = true := List.any_eq_true.mpr ⟨e, he, by simpa using hc⟩
    rw [← h] at this
    simp at this
  | some i =>
    rw [hf] at h
    simp only [false_iff, Option.isSome_some, reduceCtorEq] at h ⊢
    intro hall
    obtain ⟨e, he, hhit⟩ := List.any_eq_true.mp h.symm
    rw [hall e he] at hhit
    exact Bool.noConfusion hhit

theorem HASH_FIND_some {E : Type} (hit : E → Bool) (l : List E) (i : Nat)
    (h : HASH_FIND hit l = some i) : ∃ e, l[i]? = some e ∧ hit e = true := by
  induction l generalizing i with
  | nil => simp [HASH_FIND] at h
  | cons a rest ih =>
    simp only [HASH_FIND] at h
    cases hr : HASH_FIND hit rest with
    | some j =>
      rw [hr] at h
      simp only [Option.some.injEq] at h
      subst h
      simpa using ih j hr
    | none =>
      rw [hr] at h
      by_cases ha : hit a = true
      · simp only [ha, if_true, Option.some.injEq] at h
        subst h
        exact ⟨a, by simp, ha⟩
      · simp [ha] at h

theorem HASH_FIND_append {E : Type} (hit : E → Bool) (l : List E) (e : E) :
    HASH_FIND hit (l ++ [e]) = if hit e then some l.length else HASH_FIND hit l := by
  induction l with
  | nil => simp [HASH_FIND]
  | cons a rest ih =>
    have hstep : HASH_FIND hit (a :: rest ++ [e]) =
        match HASH_FIND hit (rest ++ [e]) with
        | some i => some (i + 1)
        | none => if hit a then some 0 else none := rfl
    rw [hstep, ih]
    simp only [HASH_FIND, List.length_cons]
    by_cases he : hit e = true
    · simp [he]
    · simp [he]

theorem set_contains_iff {T : Type} [DecidableEq T] (s : mam_endpoint_t_set_t T) (v : T) :
    mam_endpoint_t_set_contains s v = true ↔ v ∈ s.map (fun e => e.value) := by
  unfold mam_endpoint_t_set_contains
  cases s with
  | nil => simp
  | cons a rest =>
    simp only [List.isEmpty_cons, Bool.false_eq_true, if_false, HASH_FIND_isSome,
      List.any_eq_true, set_value_hit, decide_eq_true_eq, List.mem_map]

theorem set_contains_eq {T : Type} [DecidableEq T] (s : mam_endpoint_t_set_t T) (v : T) :
    mam_endpoint_t_set_contains s v = decide (v ∈ s.map (fun e => e.value)) := by
  rw [Bool.eq_iff_iff, set_contains_iff]; simp

theorem malloc_ok (h : heap_t) (hm : (malloc h).1 = true) :
    malloc h = (true, ⟨h.live + 1, h.script.tail⟩) := by
  unfold malloc at hm ⊢
  cases hs : h.script with
  | nil => rfl
  | cons b rest => cases b <;> simp_all

/-- C1: when the allocation succeeds, `add` returns `RC_OK`; afterwards the
record is contained, containment of every other record is as before, and the
size has grown by one if the record was not contained and not at all if it was. -/
theorem set_add_postcondition {T : Type} [DecidableEq T] (h : heap_t)
    (S : mam_endpoint_t_set_t T) (v : T) (halloc : (malloc h).1 = true) :
    (mam_endpoint_t_set_add h S v).1 = RC_OK ∧
    mam_endpoint_t_set_contains (mam_endpoint_t_set_add h S v).2.2 v = true ∧
    (∀ w, w ≠ v → mam_endpoint_t_set_contains (mam_endpoint_t_set_add h S v).2.2 w
        = mam_endpoint_t_set_contains S w) ∧
    mam_endpoint_t_set_size (mam_endpoint_t_set_add h S v).2.2
      = mam_endpoint_t_set_size S + (if mam_endpoint_t_set_contains S v then 0 else 1) := by
  unfold mam_endpoint_t_set_add
  by_cases hc : mam_endpoint_t_set_contains S v = true
  · simp [hc]
  · simp only [Bool.not_eq_true] at hc
    simp only [hc, Bool.not_false, if_true, malloc_ok h halloc, Bool.false_eq_true, if_false]
    refine ⟨trivial, ?_, ?_, ?_⟩
    · rw [set_contains_iff]; simp [HASH_ADD]
    · intro w hw
      rw [set_contains_eq, set_contains_eq]
      simp [HASH_ADD, hw]
    · simp [mam_endpoint_t_set_size, HASH_COUNT, HASH_ADD]

theorem set_add_postcondition_witness :
    (malloc ⟨0, [true]⟩).1 = true ∧
    mam_endpoint_t_set_contains
      (mam_endpoint_t_set_add ⟨0, [true]⟩ [(⟨7⟩ : mam_endpoint_t_set_entry_t Nat)] 9).2.2 9 = true ∧
    mam_endpoint_t_set_size
      (mam_endpoint_t_set_add ⟨0, [true]⟩ [(⟨7⟩ : mam_endpoint_t_set_entry_t Nat)] 9).2.2 = 2 :=
  ⟨by decide,
   (set_add_postcondition ⟨0, [true]⟩ [(⟨7⟩ : mam_endpoint_t_set_entry_t Nat)] 9 (by decide)).2.1,
   by decide⟩

theorem set_add_ok_contains {T : Type} [DecidableEq T] (h : heap_t)
    (S : mam_endpoint_t_set_t T) (v : T) (hok : (mam_endpoint_t_set_add h S v).1 = RC_OK) :
    mam_endpoint_t_set_contains (mam_endpoint_t_set_add h S v).2.2 v = true := by
  unfold mam_endpoint_t_set_add at hok ⊢
  by_cases hc : mam_endpoint_t_set_contains S v = true
  · simp [hc]
  · simp only [Bool.not_eq_true] at hc
    simp only [hc, Bool.not_false, if_true] at hok ⊢
    cases hm : malloc h with
    | mk b h1 =>
      rw [hm] at hok
      cases b with
      | false => simp at hok
      | true =>
        simp only []
        rw [set_contains_iff]
        simp [HASH_ADD]

/-- C2: once `add` of a record has returned `RC_OK`, a second `add` of the same
record returns `RC_OK` and leaves the set (and the allocator) as the first left
them; on the empty set the two calls give a set of size 1. -/
theorem set_add_idempotent {T : Type} [DecidableEq T] (h1 h2 : heap_t)
    (S : mam_endpoint_t_set_t T) (v : T)
    (hfirst : (mam_endpoint_t_set_add h1 S v).1 = RC_OK) :
    mam_endpoint_t_set_add h2 (mam_endpoint_t_set_add h1 S v).2.2 v
      = (RC_OK, h2, (mam_endpoint_t_set_add h1 S v).2.2) ∧
    (S = [] →
      mam_endpoint_t_set_size
        (mam_endpoint_t_set_add h2 (mam_endpoint_t_set_add h1 S v).2.2 v).2.2 = 1) := by
  have hc := set_add_ok_contains h1 S v hfirst
  have hsecond : mam_endpoint_t_set_add h2 (mam_endpoint_t_set_add h1 S v).2.2 v
      = (RC_OK, h2, (mam_endpoint_t_set_add h1 S v).2.2) := by
    generalize (mam_endpoint_t_set_add h1 S v).2.2 = S1 at hc
    simp [mam_endpoint_t_set_add, hc]
  refine ⟨hsecond, ?_⟩
  intro hS
  subst hS
  rw [hsecond]
  unfold mam_endpoint_t_set_add at hfirst ⊢
  simp only [mam_endpoint_t_set_contains, List.isEmpty_nil, if_true, Bool.not_false] at hfirst ⊢
  cases hm : malloc h1 with
  | mk b h3 =>
    rw [hm] at hfirst
    cases b with
    | false => simp at hfirst
    | true => simp [mam_endpoint_t_set_size, HASH_COUNT, HASH_ADD]

theorem set_add_idempotent_witness :
    mam_endpoint_t_set_add ⟨1, [false]⟩
        (mam_endpoint_t_set_add ⟨0, []⟩ ([] : mam_endpoint_t_set_t Nat) 4).2.2 4
      = (RC_OK, ⟨1, [false]⟩, [⟨4⟩]) ∧
    mam_endpoint_t_set_size
      (mam_endpoint_t_set_add ⟨1, [false]⟩
        (mam_endpoint_t_set_add ⟨0, []⟩ ([] : mam_endpoint_t_set_t Nat) 4).2.2 4).2.2 = 1 :=
  ⟨(set_add_idempotent ⟨0, []⟩ ⟨1, [false]⟩ ([] : mam_endpoint_t_set_t Nat) 4 (by decide)).1,
   (set_add_idempotent ⟨0, []⟩ ⟨1, [false]⟩ ([] : mam_endpoint_t_set_t Nat) 4 (by decide)).2 rfl⟩

theorem map_add_ok (h : heap_t) (M : trit_t_to_mam_msg_read_context_t_map_t)
    (k : List trit_t) (v : List byte_t)
    (hok : (trit_t_to_mam_msg_read_context_t_map_add h M k v).1 = RC_OK) :
    (trit_t_to_mam_msg_read_context_t_map_add h M k v).2.2
      = ⟨M.key_size, M.value_size,
          M.map ++ [⟨memcpy k M.key_size, memcpy v M.value_size⟩]⟩ := by
  unfold trit_t_to_mam_msg_read_context_t_map_add at hok ⊢
  cases hm1 : malloc h with
  | mk b1 h1 =>
    rw [hm1] at hok
    cases b1 with
    | false => simp at hok
    | true =>
      simp only [] at hok ⊢
      cases hm2 : malloc h1 with
      | mk b2 h2 =>
        rw [hm2] at hok
        cases b2 with
        | false => simp at hok
        | true =>
          simp only [] at hok ⊢
          cases hm3 : malloc h2 with
          | mk b3 h3 =>
            rw [hm3] at hok
            cases b3 with
            | false => simp at hok
            | true => simp [HASH_ADD]

theorem map_contains_iff (M : trit_t_to_mam_msg_read_context_t_map_t) (k : List trit_t) :
    trit_t_to_mam_msg_read_context_t_map_contains (some M) k = true
      ↔ memcpy k M.key_size ∈ M.map.map (fun e => e.key) := by
  obtain ⟨ks, vs, l⟩ := M
  unfold trit_t_to_mam_msg_read_context_t_map_contains
  cases l with
  | nil => simp
  | cons a rest =>
    simp only [List.isEmpty_cons, Bool.false_eq_true, if_false, HASH_FIND_isSome,
      List.any_eq_true, map_key_hit, decide_eq_true_eq, List.mem_map]

theorem map_contains_eq (M : trit_t_to_mam_msg_read_context_t_map_t) (k : List trit_t) :
    trit_t_to_mam_msg_read_context_t_map_contains (some M) k
      = decide (memcpy k M.key_size ∈ M.map.map (fun e => e.key)) := by
  rw [Bool.eq_iff_iff, map_contains_iff]; simp

theorem map_find_slot (M : trit_t_to_mam_msg_read_context_t_map_t) (k : List trit_t)
    (r : Option Nat) (hne : M.map ≠ []) :
    trit_t_to_mam_msg_read_context_t_map_find (some M) k (some r)
      = ((HASH_FIND (map_key_hit k M.key_size) M.map).isSome,
          some (HASH_FIND (map_key_hit k M.key_size) M.map)) := by
  obtain ⟨ks, vs, l⟩ := M
  cases l with
  | nil => exact absurd rfl hne
  | cons a rest => simp [trit_t_to_mam_msg_read_context_t_map_find]

theorem memcpy_of_length {α : Type} (src : List α) (n : Nat) (h : src.length = n) :
    memcpy src n = src := by
  unfold memcpy
  exact List.take_of_length_le (le_of_eq h)

/-- C3: after a successful `add` of a key of `key_size` bytes that was not
present, `contains` of the key is true and `find` of it returns true with an
entry holding the key and the first `value_size` bytes of the value; for every
other key of `key_size` bytes `contains` and `find` answer as before, `find`
with the same entry when it finds one. -/
theorem map_add_then_lookup (h : heap_t) (M : trit_t_to_mam_msg_read_context_t_map_t)
    (k : List trit_t) (v : List byte_t) (hk : k.length = M.key_size)
    (hnew : trit_t_to_mam_msg_read_context_t_map_contains (some M) k = false)
    (hok : (trit_t_to_mam_msg_read_context_t_map_add h M k v).1 = RC_OK) :
    trit_t_to_mam_msg_read_context_t_map_contains
      (some (trit_t_to_mam_msg_read_context_t_map_add h M k v).2.2) k = true ∧
    (∀ r : Option Nat, ∃ i,
      trit_t_to_mam_msg_read_context_t_map_find
        (some (trit_t_to_mam_msg_read_context_t_map_add h M k v).2.2) k (some r)
          = (true, some (some i)) ∧
      (trit_t_to_mam_msg_read_context_t_map_add h M k v).2.2.map[i]?
          = some ⟨k, memcpy v M.value_size⟩) ∧
    (∀ k2 : List trit_t, k2.length = M.key_size → k2 ≠ k →
      trit_t_to_mam_msg_read_context_t_map_contains
          (some (trit_t_to_mam_msg_read_context_t_map_add h M k v).2.2) k2
        = trit_t_to_mam_msg_read_context_t_map_contains (some M) k2 ∧
      ∀ r : Option Nat,
        (trit_t_to_mam_msg_read_context_t_map_find
            (some (trit_t_to_mam_msg_read_context_t_map_add h M k v).2.2) k2 (some r)).1
          = (trit_t_to_mam_msg_read_context_t_map_find (some M) k2 (some r)).1 ∧
        ∀ i, trit_t_to_mam_msg_read_context_t_map_find (some M) k2 (some r)
              = (true, some (some i)) →
          trit_t_to_mam_msg_read_context_t_map_find
              (some (trit_t_to_mam_msg_read_context_t_map_add h M k v).2.2) k2 (some r)
            = (true, some (some i)) ∧
          (trit_t_to_mam_msg_read_context_t_map_add h M k v).2.2.map[i]? = M.map[i]?) := by
  have hfresh : ∀ e ∈ M.map, e.key ≠ k := by
    intro e he hek
    have hin : trit_t_to_mam_msg_read_context_t_map_contains (some M) k = true := by
      rw [map_contains_iff, memcpy_of_length k _ hk]
      exact List.mem_map.mpr ⟨e, he, hek⟩
    rw [hnew] at hin
    exact Bool.noConfusion hin
  rw [map_add_ok h M k v hok, memcpy_of_length k _ hk]
  have hne : M.map ++ [(⟨k, memcpy v M.value_size⟩ :
      trit_t_to_mam_msg_read_context_t_map_entry_t)] ≠ [] := by simp
  refine ⟨?_, ?_, ?_⟩
  · rw [map_contains_iff]; simp [memcpy_of_length k _ hk]
  · intro r
    refine ⟨M.map.length, ?_, ?_⟩
    · rw [map_find_slot _ _ _ hne]
      simp [HASH_FIND_append, map_key_hit, memcpy_of_length k _ hk]
    · simp
  · intro k2 hk2 hne2
    have hmiss : map_key_hit k2 M.key_size
        (⟨k, memcpy v M.value_size⟩ : trit_t_to_mam_msg_read_context_t_map_entry_t) = false := by
      simp [map_key_hit, memcpy_of_length k2 _ hk2, Ne.symm hne2]
    refine ⟨?_, ?_⟩
    · rw [map_contains_eq, map_contains_eq]
      simp [memcpy_of_length k2 _ hk2, hne2]
    · intro r
      rw [map_find_slot _ _ _ hne]
      simp only [HASH_FIND_append, hmiss, Bool.false_eq_true, if_false]
      by_cases hM : M.map = []
      · obtain ⟨ks, vs, l⟩ := M
        simp only at hM
        subst hM
        simp [trit_t_to_mam_msg_read_context_t_map_find, HASH_FIND]
      · rw [map_find_slot _ _ _ hM]
        refine ⟨rfl, ?_⟩
        intro i hi
        refine ⟨hi, ?_⟩
        simp only [Prod.mk.injEq, Option.some.injEq] at hi
        obtain ⟨e, he, _⟩ := HASH_FIND_some _ _ _ hi.2
        have hlt : i < M.map.length := by
          by_contra hge
          rw [List.getElem?_eq_none (Nat.le_of_not_lt hge)] at he
          exact Option.noConfusion he
        exact List.getElem?_append_left hlt

theorem map_add_then_lookup_witness :
    trit_t_to_mam_msg_read_context_t_map_contains
      (some (trit_t_to_mam_msg_read_context_t_map_add ⟨0, []⟩
        ⟨3, 2, [⟨[0, 1, -1], [5, 6]⟩]⟩ [1, 2, 3] [7, 8, 9]).2.2) [1, 2, 3] = true ∧
    (∀ r : Option Nat, ∃ i,
      trit_t_to_mam_msg_read_context_t_map_find
        (some (trit_t_to_mam_msg_read_context_t_map_add ⟨0, []⟩
          ⟨3, 2, [⟨[0, 1, -1], [5, 6]⟩]⟩ [1, 2, 3] [7, 8, 9]).2.2) [1, 2, 3] (some r)
          = (true, some (some i)) ∧
      (trit_t_to_mam_msg_read_context_t_map_add ⟨0, []⟩
          ⟨3, 2, [⟨[0, 1, -1], [5, 6]⟩]⟩ [1, 2, 3] [7, 8, 9]).2.2.map[i]?
          = some ⟨[1, 2, 3], [7, 8]⟩) :=
  ⟨(map_add_then_lookup ⟨0, []⟩ ⟨3, 2, [⟨[0, 1, -1], [5, 6]⟩]⟩ [1, 2, 3] [7, 8, 9]
      (by decide) (by decide) (by decide)).1,
   (map_add_then_lookup ⟨0, []⟩ ⟨3, 2, [⟨[0, 1, -1], [5, 6]⟩]⟩ [1, 2, 3] [7, 8, 9]
      (by decide) (by decide) (by decide)).2.1⟩

/-! ## The invariant of the sets: no record twice -/

theorem set_add_cases {T : Type} [DecidableEq T] (h : heap_t)
    (S : mam_endpoint_t_set_t T) (v : T) :
    ((mam_endpoint_t_set_add h S v).2.2 = S) ∨
    (mam_endpoint_t_set_contains S v = false ∧ (mam_endpoint_t_set_add h S v).1 = RC_OK ∧
      (mam_endpoint_t_set_add h S v).2.2 = S ++ [⟨v⟩]) := by
  unfold mam_endpoint_t_set_add
  by_cases hc : mam_endpoint_t_set_contains S v = true
  · left; simp [hc]
  · simp only [Bool.not_eq_true] at hc
    simp only [hc, Bool.not_false, if_true]
    cases hm : malloc h with
    | mk b h1 =>
      cases b with
      | false => left; rfl
      | true => right; exact ⟨trivial, rfl, rfl⟩

theorem set_add_nodup {T : Type} [DecidableEq T] (h : heap_t)
    (S : mam_endpoint_t_set_t T) (v : T) (hS : (S.map (fun e => e.value)).Nodup) :
    ((mam_endpoint_t_set_add h S v).2.2.map (fun e => e.value)).Nodup := by
  rcases set_add_cases h S v with heq | ⟨hc, _, heq⟩
  · rw [heq]; exact hS
  · rw [heq, List.map_append, List.nodup_append]
    refine ⟨hS, by simp, ?_⟩
    have hnot : v ∉ S.map (fun e => e.value) := by
      intro hin
      rw [← set_contains_iff, hc] at hin
      exact Bool.noConfusion hin
    intro a ha hb
    simp only [List.map_cons, List.map_nil, List.mem_singleton] at hb
    subst hb
    exact hnot ha

theorem set_append_loop_nodup {T : Type} [DecidableEq T]
    (l : List (mam_endpoint_t_set_entry_t T)) (h : heap_t) (S : mam_endpoint_t_set_t T)
    (hS : (S.map (fun e => e.value)).Nodup) :
    ((mam_endpoint_t_set_append_loop h l S).2.2.map (fun e => e.value)).Nodup := by
  induction l generalizing h S with
  | nil => exact hS
  | cons a rest ih =>
    have hadd := set_add_nodup h S a.value hS
    unfold mam_endpoint_t_set_append_loop
    rcases hr : mam_endpoint_t_set_add h S a.value with ⟨rc, h1, s2⟩
    rw [hr] at hadd
    cases rc with
    | RC_OK => exact ih h1 s2 hadd
    | RC_OOM => exact hadd
    | RC_NULL_PARAM => exact hadd

theorem HASH_DEL_nodup {T : Type} (S : mam_endpoint_t_set_t T) (i : Nat)
    (hS : (S.map (fun e => e.value)).Nodup) :
    ((HASH_DEL S i).map (fun e => e.value)).Nodup :=
  List.Nodup.sublist (List.Sublist.map _ (List.eraseIdx_sublist S i)) hS

theorem set_remove_entry_nodup {T : Type} (h : heap_t) (S S1 : mam_endpoint_t_set_t T)
    (e : Option Nat) (hS : (S.map (fun e => e.value)).Nodup)
    (hr : (mam_endpoint_t_set_remove_entry h (some S) e).2.2 = some S1) :
    (S1.map (fun e => e.value)).Nodup := by
  unfold mam_endpoint_t_set_remove_entry at hr
  cases e with
  | none => simp only [Option.some.injEq] at hr; subst hr; exact hS
  | some i =>
    by_cases hemp : S.isEmpty = true
    · simp only [hemp, Bool.not_true, Bool.false_eq_true, if_false, Option.some.injEq] at hr
      subst hr; exact hS
    · simp only [Bool.not_eq_true] at hemp
      simp only [hemp, Bool.not_false, if_true, Option.some.injEq] at hr
      subst hr
      exact HASH_DEL_nodup S i hS

theorem set_remove_nodup {T : Type} [DecidableEq T] (h : heap_t)
    (S S1 : mam_endpoint_t_set_t T) (v : Option T) (hS : (S.map (fun e => e.value)).Nodup)
    (hr : (mam_endpoint_t_set_remove h (some S) v).2.2 = some S1) :
    (S1.map (fun e => e.value)).Nodup := by
  unfold mam_endpoint_t_set_remove at hr
  cases v with
  | none => simp only [Option.some.injEq] at hr; subst hr; exact hS
  | some w =>
    by_cases hemp : S.isEmpty = true
    · simp only [hemp, Bool.not_true, Bool.false_eq_true, if_false, Option.some.injEq] at hr
      subst hr; exact hS
    · simp only [Bool.not_eq_true] at hemp
      simp only [hemp, Bool.not_false, if_true] at hr
      exact set_remove_entry_nodup h S S1 _ hS hr

theorem set_reachable_nodup {T : Type} [DecidableEq T] (S : mam_endpoint_t_set_t T)
    (hS : set_reachable S) : (S.map (fun e => e.value)).Nodup := by
  induction hS with
  | empty => exact List.nodup_nil
  | add h s v _ ih => exact set_add_nodup h s v ih
  | remove h s s1 v _ hr ih => exact set_remove_nodup h s s1 v ih hr
  | remove_entry h s s1 e _ hr ih => exact set_remove_entry_nodup h s s1 e ih hr
  | append h s1 s2 _ _ _ ih2 => exact set_append_loop_nodup s1 h s2 ih2
  | free h s s1 _ hr ih =>
    unfold mam_endpoint_t_set_free at hr
    by_cases hemp : s.isEmpty = true
    · simp only [hemp, if_true, Option.some.injEq] at hr
      subst hr; exact ih
    · simp only [hemp, Bool.false_eq_true, if_false, Option.some.injEq] at hr
      subst hr; exact List.nodup_nil

theorem set_cmp_iff {T : Type} [DecidableEq T] (lhs rhs : mam_endpoint_t_set_t T) :
    mam_endpoint_t_set_cmp lhs rhs = true ↔
      lhs.length = rhs.length ∧
      ∀ v ∈ lhs.map (fun e => e.value), v ∈ rhs.map (fun e => e.value) := by
  unfold mam_endpoint_t_set_cmp HASH_COUNT
  by_cases hlen : lhs.length = rhs.length
  · simp only [hlen, ne_eq, not_true_eq_false, if_false, List.all_eq_true, true_and]
    constructor
    · intro hall v hv
      obtain ⟨e, he, hev⟩ := List.mem_map.mp hv
      subst hev
      exact (set_contains_iff rhs e.value).mp (hall e he)
    · intro hall e he
      exact (set_contains_iff rhs e.value).mpr (hall _ (List.mem_map.mpr ⟨e, he, rfl⟩))
  · simp [hlen]

theorem set_cmp_iff_same_members {T : Type} [DecidableEq T] (lhs rhs : mam_endpoint_t_set_t T)
    (hl : (lhs.map (fun e => e.value)).Nodup) (hr : (rhs.map (fun e => e.value)).Nodup) :
    mam_endpoint_t_set_cmp lhs rhs = true ↔
      ∀ v, v ∈ lhs.map (fun e => e.value) ↔ v ∈ rhs.map (fun e => e.value) := by
  rw [set_cmp_iff]
  constructor
  · rintro ⟨hlen, hsub⟩
    have hsp : List.Subperm (lhs.map (fun e => e.value)) (rhs.map (fun e => e.value)) :=
      List.subperm_of_subset hl hsub
    have hperm := hsp.perm_of_length_le (by simp [hlen])
    exact fun v => hperm.mem_iff
  · intro hmem
    have hperm := (List.perm_ext_iff_of_nodup hl hr).mpr hmem
    refine ⟨by simpa using hperm.length_eq, fun v hv => (hmem v).mp hv⟩

/-- C4: on sets built from the empty set by the operations of the set, `cmp`
is true exactly when the two sets contain the same records; hence `cmp` gives
the same answer with its arguments exchanged. -/
theorem set_cmp_is_set_equality {T : Type} [DecidableEq T] (lhs rhs : mam_endpoint_t_set_t T)
    (hl : set_reachable lhs) (hr : set_reachable rhs) :
    (mam_endpoint_t_set_cmp lhs rhs = true ↔
      ∀ v, mam_endpoint_t_set_contains lhs v = mam_endpoint_t_set_contains rhs v) ∧
    mam_endpoint_t_set_cmp lhs rhs = mam_endpoint_t_set_cmp rhs lhs := by
  have hln := set_reachable_nodup lhs hl
  have hrn := set_reachable_nodup rhs hr
  have key : ∀ a b : mam_endpoint_t_set_t T,
      (∀ v, mam_endpoint_t_set_contains a v = mam_endpoint_t_set_contains b v) ↔
      (∀ v, v ∈ a.map (fun e => e.value) ↔ v ∈ b.map (fun e => e.value)) := by
    intro a b
    constructor
    · intro hc v
      rw [← set_contains_iff, ← set_contains_iff, hc v]
    · intro hm v
      rw [set_contains_eq, set_contains_eq]
      simp [hm v]
  refine ⟨?_, ?_⟩
  · rw [key]; exact set_cmp_iff_same_members lhs rhs hln hrn
  · rw [Bool.eq_iff_iff, set_cmp_iff_same_members lhs rhs hln hrn,
      set_cmp_iff_same_members rhs lhs hrn hln]
    exact ⟨fun hm v => (hm v).symm, fun hm v => (hm v).symm⟩

theorem set_reachable_1_2 : set_reachable ([⟨1⟩, ⟨2⟩] : mam_endpoint_t_set_t Nat) :=
  set_reachable.add ⟨0, []⟩ [⟨1⟩] 2 (set_reachable.add ⟨0, []⟩ [] 1 set_reachable.empty)

theorem set_reachable_2_1 : set_reachable ([⟨2⟩, ⟨1⟩] : mam_endpoint_t_set_t Nat) :=
  set_reachable.add ⟨0, []⟩ [⟨2⟩] 1 (set_reachable.add ⟨0, []⟩ [] 2 set_reachable.empty)

theorem set_cmp_is_set_equality_witness :
    set_reachable ([⟨1⟩, ⟨2⟩] : mam_endpoint_t_set_t Nat) ∧
    set_reachable ([⟨2⟩, ⟨1⟩] : mam_endpoint_t_set_t Nat) ∧
    (mam_endpoint_t_set_cmp ([⟨1⟩, ⟨2⟩] : mam_endpoint_t_set_t Nat) [⟨2⟩, ⟨1⟩] = true ↔
      ∀ v, mam_endpoint_t_set_contains ([⟨1⟩, ⟨2⟩] : mam_endpoint_t_set_t Nat) v
        = mam_endpoint_t_set_contains ([⟨2⟩, ⟨1⟩] : mam_endpoint_t_set_t Nat) v) :=
  ⟨set_reachable_1_2, set_reachable_2_1,
   (set_cmp_is_set_equality ([⟨1⟩, ⟨2⟩] : mam_endpoint_t_set_t Nat) [⟨2⟩, ⟨1⟩]
     set_reachable_1_2 set_reachable_2_1).1⟩

theorem map_cmp_iff (lhs rhs : trit_t_to_mam_msg_read_context_t_map_t) :
    trit_t_to_mam_msg_read_context_t_map_cmp lhs rhs = true ↔
      lhs.map.length = rhs.map.length ∧
      ∀ k ∈ lhs.map.map (fun e => e.key),
        memcpy k rhs.key_size ∈ rhs.map.map (fun e => e.key) := by
  unfold trit_t_to_mam_msg_read_context_t_map_cmp HASH_COUNT
  by_cases hlen : lhs.map.length = rhs.map.length
  · simp only [hlen, ne_eq, not_true_eq_false, if_false, List.all_eq_true, true_and,
      map_contains_iff]
    constructor
    · intro hall k hk
      obtain ⟨e, he, hek⟩ := List.mem_map.mp hk
      subst hek
      exact hall e he
    · intro hall e he
      exact hall _ (List.mem_map.mpr ⟨e, he, rfl⟩)
  · simp [hlen]

/-- C5: `cmp` of two maps is true exactly when the sizes are equal and every
key stored in `lhs` is contained in `rhs` (whatever the key sizes); and it
gives the same answer on any two maps with the same key sizes and the same
keys in the same entries, whatever values they store. -/
theorem map_cmp_definition (lhs rhs : trit_t_to_mam_msg_read_context_t_map_t) :
    (trit_t_to_mam_msg_read_context_t_map_cmp lhs rhs = true ↔
      trit_t_to_mam_msg_read_context_t_map_size lhs
          = trit_t_to_mam_msg_read_context_t_map_size rhs ∧
      ∀ e ∈ lhs.map,
        trit_t_to_mam_msg_read_context_t_map_contains (some rhs) e.key = true) ∧
    (∀ lhs2 rhs2 : trit_t_to_mam_msg_read_context_t_map_t,
      lhs2.key_size = lhs.key_size → rhs2.key_size = rhs.key_size →
      lhs2.map.map (fun e => e.key) = lhs.map.map (fun e => e.key) →
      rhs2.map.map (fun e => e.key) = rhs.map.map (fun e => e.key) →
      trit_t_to_mam_msg_read_context_t_map_cmp lhs2 rhs2
        = trit_t_to_mam_msg_read_context_t_map_cmp lhs rhs) := by
  refine ⟨?_, ?_⟩
  · unfold trit_t_to_mam_msg_read_context_t_map_cmp
      trit_t_to_mam_msg_read_context_t_map_size
    by_cases hlen : HASH_COUNT lhs.map = HASH_COUNT rhs.map
    · simp [hlen]
    · simp [hlen]
  · intro lhs2 rhs2 _ hkr hl hr
    have hll : lhs2.map.length = lhs.map.length := by
      simpa using congrArg List.length hl
    have hrl : rhs2.map.length = rhs.map.length := by
      simpa using congrArg List.length hr
    rw [Bool.eq_iff_iff, map_cmp_iff, map_cmp_iff, hl, hr, hkr, hll, hrl]

theorem map_cmp_definition_witness :
    trit_t_to_mam_msg_read_context_t_map_cmp
        ⟨2, 1, [⟨[1, 0], [9]⟩, ⟨[0, 1], [8]⟩]⟩ ⟨2, 1, [⟨[0, 1], [7]⟩, ⟨[1, 0], [6]⟩]⟩
      = trit_t_to_mam_msg_read_context_t_map_cmp
        ⟨2, 1, [⟨[1, 0], [0]⟩, ⟨[0, 1], [0]⟩]⟩ ⟨2, 1, [⟨[0, 1], [0]⟩, ⟨[1, 0], [0]⟩]⟩ :=
  (map_cmp_definition ⟨2, 1, [⟨[1, 0], [0]⟩, ⟨[0, 1], [0]⟩]⟩
      ⟨2, 1, [⟨[0, 1], [0]⟩, ⟨[1, 0], [0]⟩]⟩).2
    ⟨2, 1, [⟨[1, 0], [9]⟩, ⟨[0, 1], [8]⟩]⟩ ⟨2, 1, [⟨[0, 1], [7]⟩, ⟨[1, 0], [6]⟩]⟩
    rfl rfl rfl rfl

/-! ## Calls under an allocator that does not fail -/

theorem malloc_no_fail (h : heap_t) (hh : h.no_fail) :
    (malloc h).1 = true ∧ (malloc h).2.no_fail := by
  obtain ⟨live, script⟩ := h
  unfold heap_t.no_fail at hh
  simp only at hh
  cases script with
  | nil => exact ⟨rfl, by simp [malloc, heap_t.no_fail]⟩
  | cons b rest =>
    have hb : b = true := hh b (List.mem_cons_self b rest)
    subst hb
    refine ⟨rfl, ?_⟩
    intro c hc
    exact hh c (List.mem_cons_of_mem _ hc)

theorem free_no_fail (h : heap_t) (hh : h.no_fail) : (free h).no_fail := hh

theorem set_add_no_fail {T : Type} [DecidableEq T] (h : heap_t)
    (S : mam_endpoint_t_set_t T) (v : T) (hh : h.no_fail) :
    (mam_endpoint_t_set_add h S v).1 = RC_OK ∧ (mam_endpoint_t_set_add h S v).2.1.no_fail ∧
    ∀ w, w ∈ (mam_endpoint_t_set_add h S v).2.2.map (fun e => e.value)
      ↔ (w ∈ S.map (fun e => e.value) ∨ w = v) := by
  obtain ⟨hm1, hm2⟩ := malloc_no_fail h hh
  unfold mam_endpoint_t_set_add
  by_cases hc : mam_endpoint_t_set_contains S v = true
  · simp only [hc, Bool.not_true, Bool.false_eq_true, if_false]
    refine ⟨trivial, hh, ?_⟩
    intro w
    constructor
    · exact fun hw => Or.inl hw
    · rintro (hw | hw)
      · exact hw
      · subst hw; exact (set_contains_iff S w).mp hc
  · simp only [Bool.not_eq_true] at hc
    simp only [hc, Bool.not_false, if_true]
    rcases hm : malloc h with ⟨b, h1⟩
    rw [hm] at hm1 hm2
    simp only at hm1 hm2
    subst hm1
    refine ⟨rfl, hm2, ?_⟩
    intro w
    simp [HASH_ADD]

theorem set_append_loop_no_fail {T : Type} [DecidableEq T]
    (l : List (mam_endpoint_t_set_entry_t T)) (h : heap_t) (S : mam_endpoint_t_set_t T)
    (hh : h.no_fail) :
    (mam_endpoint_t_set_append_loop h l S).1 = RC_OK ∧
    ∀ w, w ∈ (mam_endpoint_t_set_append_loop h l S).2.2.map (fun e => e.value)
      ↔ (w ∈ l.map (fun e => e.value) ∨ w ∈ S.map (fun e => e.value)) := by
  induction l generalizing h S with
  | nil => exact ⟨rfl, by simp [mam_endpoint_t_set_append_loop]⟩
  | cons a rest ih =>
    obtain ⟨hrc, hheap, hmem⟩ := set_add_no_fail h S a.value hh
    unfold mam_endpoint_t_set_append_loop
    rcases hr : mam_endpoint_t_set_add h S a.value with ⟨rc, h1, s2⟩
    rw [hr] at hrc hheap hmem
    simp only at hrc hheap hmem
    subst hrc
    simp only
    obtain ⟨ih1, ih2⟩ := ih h1 s2 hheap
    refine ⟨ih1, ?_⟩
    intro w
    rw [ih2 w, hmem w]
    simp only [List.map_cons, List.mem_cons]
    tauto

/-- C6: with `S2` built by the operations of the set (`S1` may be any table,
so also one built by them) and no allocation failing, `append(S1, S2)` returns
`RC_OK`; afterwards `S2` contains exactly the records that `S1` or the former
`S2` contained, and its size is the number of distinct records of the two.
(`S1` is only read by `append`.) -/
theorem set_append_is_union {T : Type} [DecidableEq T] (h : heap_t)
    (S1 S2 : mam_endpoint_t_set_t T) (h2 : set_reachable S2) (halloc : h.no_fail) :
    (mam_endpoint_t_set_append h S1 S2).1 = RC_OK ∧
    (∀ v, mam_endpoint_t_set_contains (mam_endpoint_t_set_append h S1 S2).2.2 v
      = (mam_endpoint_t_set_contains S1 v || mam_endpoint_t_set_contains S2 v)) ∧
    mam_endpoint_t_set_size (mam_endpoint_t_set_append h S1 S2).2.2
      = ((S1.map (fun e => e.value)).toFinset ∪ (S2.map (fun e => e.value)).toFinset).card := by
  have hnd := set_append_loop_nodup S1 h S2 (set_reachable_nodup S2 h2)
  obtain ⟨hrc, hmem⟩ := set_append_loop_no_fail S1 h S2 halloc
  unfold mam_endpoint_t_set_append
  refine ⟨hrc, ?_, ?_⟩
  · intro v
    rw [set_contains_eq, set_contains_eq, set_contains_eq, ← Bool.decide_or]
    exact decide_eq_decide.mpr (hmem v)
  · have hcard := List.toFinset_card_of_nodup hnd
    simp only [List.length_map] at hcard
    unfold mam_endpoint_t_set_size HASH_COUNT
    rw [← hcard]
    congr 1
    ext w
    simp only [List.mem_toFinset, Finset.mem_union]
    exact hmem w

theorem set_append_is_union_witness :
    (⟨0, [true]⟩ : heap_t).no_fail ∧
    mam_endpoint_t_set_size
      (mam_endpoint_t_set_append ⟨0, [true]⟩ ([⟨1⟩, ⟨2⟩] : mam_endpoint_t_set_t Nat)
        [⟨2⟩, ⟨1⟩]).2.2
      = (([⟨1⟩, ⟨2⟩] : mam_endpoint_t_set_t Nat).map (fun e => e.value)).toFinset.card ∧
    (mam_endpoint_t_set_append ⟨0, [true]⟩ ([⟨1⟩, ⟨2⟩] : mam_endpoint_t_set_t Nat)
        [⟨2⟩, ⟨1⟩]).1 = RC_OK :=
  ⟨by decide, by decide,
   (set_append_is_union ⟨0, [true]⟩ ([⟨1⟩, ⟨2⟩] : mam_endpoint_t_set_t Nat) [⟨2⟩, ⟨1⟩]
     set_reachable_2_1 (by decide)).1⟩

/-- C7: if the callback returns `RC_OK` on the first `i` entries in iteration
order and a code other than `RC_OK` on the next one, `e`, then `for_each`
returns exactly that code, with the container as that call left it, and the
callback has been called on the first `i + 1` entries, in order, and on no
other. -/
theorem set_for_each_stops_at_first_error {T σ : Type} (S : mam_endpoint_t_set_t T)
    (func : σ → T → retcode_t × σ) (container : σ) (i : Nat)
    (e : mam_endpoint_t_set_entry_t T) (hi : S[i]? = some e)
    (hok : ∀ j, j < i → ∀ ej, S[j]? = some ej →
      (func (container_after func (S.take j) container) ej.value).1 = RC_OK)
    (herr : (func (container_after func (S.take i) container) e.value).1 ≠ RC_OK) :
    mam_endpoint_t_set_for_each S func container
      = ((func (container_after func (S.take i) container) e.value).1,
         (func (container_after func (S.take i) container) e.value).2,
         (S.take (i + 1)).map (fun x => x.value)) ∧
    (mam_endpoint_t_set_for_each S func container).2.2.length = i + 1 := by
  have main : mam_endpoint_t_set_for_each S func container
      = ((func (container_after func (S.take i) container) e.value).1,
         (func (container_after func (S.take i) container) e.value).2,
         (S.take (i + 1)).map (fun x => x.value)) := by
    unfold mam_endpoint_t_set_for_each
    induction S generalizing i container with
    | nil => simp at hi
    | cons a rest ih =>
      cases i with
      | zero =>
        simp only [List.getElem?_cons_zero, Option.some.injEq] at hi
        subst hi
        simp only [List.take_zero, container_after, List.foldl_nil] at herr ⊢
        unfold mam_endpoint_t_set_for_each_loop
        rcases hf : func container a.value with ⟨rc, c1⟩
        rw [hf] at herr
        cases rc with
        | RC_OK => exact absurd rfl herr
        | RC_OOM => simp
        | RC_NULL_PARAM => simp
      | succ k =>
        have h0 : (func container a.value).1 = RC_OK := by
          have := hok 0 (Nat.succ_pos k) a (by simp)
          simpa [container_after] using this
        have hstep : ∀ n, container_after func ((a :: rest).take (n + 1)) container
            = container_after func (rest.take n) (func container a.value).2 := by
          intro n
          simp [container_after]
        simp only [List.getElem?_cons_succ] at hi
        rw [hstep] at herr ⊢
        have hok2 : ∀ j, j < k → ∀ ej, rest[j]? = some ej →
            (func (container_after func (rest.take j) (func container a.value).2)
              ej.value).1 = RC_OK := by
          intro j hj ej hej
          have := hok (j + 1) (Nat.succ_lt_succ hj) ej (by simpa using hej)
          rw [hstep] at this
          exact this
        have ih2 := ih (func container a.value).2 k hi hok2 herr
        unfold mam_endpoint_t_set_for_each_loop
        rcases hf : func container a.value with ⟨rc, c1⟩
        rw [hf] at h0 ih2
        simp only at h0 ih2
        subst h0
        simp only [ih2, List.take_succ_cons, List.map_cons]
  refine ⟨main, ?_⟩
  rw [main]
  have hlt : i < S.length := by
    by_contra hge
    rw [List.getElem?_eq_none (Nat.le_of_not_lt hge)] at hi
    exact Option.noConfusion hi
  simp only [List.length_map, List.length_take]
  omega

theorem set_for_each_stops_at_first_error_witness :
    mam_endpoint_t_set_for_each ([⟨10⟩, ⟨20⟩, ⟨30⟩] : mam_endpoint_t_set_t Nat)
        (fun (c : Nat) _ => (if c = 1 then RC_OOM else RC_OK, c + 1)) 0
      = (RC_OOM, 2, [10, 20]) ∧
    (mam_endpoint_t_set_for_each ([⟨10⟩, ⟨20⟩, ⟨30⟩] : mam_endpoint_t_set_t Nat)
        (fun (c : Nat) _ => (if c = 1 then RC_OOM else RC_OK, c + 1)) 0).2.2.length = 2 :=
  set_for_each_stops_at_first_error ([⟨10⟩, ⟨20⟩, ⟨30⟩] : mam_endpoint_t_set_t Nat)
    (fun (c : Nat) _ => (if c = 1 then RC_OOM else RC_OK, c + 1)) 0 1 ⟨20⟩ rfl
    (by
      intro j hj ej hej
      have hj0 : j = 0 := by omega
      subst hj0
      rfl)
    (by decide)

/-! ## Sequences of calls on a map -/

theorem map_add_no_fail (h : heap_t) (M : trit_t_to_mam_msg_read_context_t_map_t)
    (k : List trit_t) (v : List byte_t) (hh : h.no_fail) :
    (trit_t_to_mam_msg_read_context_t_map_add h M k v).1 = RC_OK ∧
    (trit_t_to_mam_msg_read_context_t_map_add h M k v).2.1.no_fail := by
  obtain ⟨a1, b1⟩ := malloc_no_fail h hh
  obtain ⟨a2, b2⟩ := malloc_no_fail _ b1
  obtain ⟨a3, b3⟩ := malloc_no_fail _ b2
  unfold trit_t_to_mam_msg_read_context_t_map_add
  rcases hm1 : malloc h with ⟨c1, h1⟩
  rw [hm1] at a1 a2 a3 b2 b3
  simp only at a1 a2 a3 b2 b3
  subst a1
  simp only
  rcases hm2 : malloc h1 with ⟨c2, h2⟩
  rw [hm2] at a2 a3 b3
  simp only at a2 a3 b3
  subst a2
  simp only
  rcases hm3 : malloc h2 with ⟨c3, h3⟩
  rw [hm3] at a3 b3
  simp only at a3 b3
  subst a3
  exact ⟨rfl, b3⟩

theorem map_remove_eq (h : heap_t) (M : trit_t_to_mam_msg_read_context_t_map_t)
    (k : List trit_t) :
    trit_t_to_mam_msg_read_context_t_map_remove h (some M) k
      = match HASH_FIND (map_key_hit k M.key_size) M.map with
        | none => (false, h, some M)
        | some i => (true, free (free (free h)),
            some ⟨M.key_size, M.value_size, M.map.eraseIdx i⟩) := by
  obtain ⟨ks, vs, l⟩ := M
  cases l with
  | nil => simp [trit_t_to_mam_msg_read_context_t_map_remove, HASH_FIND]
  | cons a rest =>
    simp only [trit_t_to_mam_msg_read_context_t_map_remove, List.isEmpty_cons,
      Bool.false_eq_true, if_false]
    cases hf : HASH_FIND (map_key_hit k ks) (a :: rest) with
    | none => simp [trit_t_to_mam_msg_read_context_t_map_remove_entry]
    | some i => simp [trit_t_to_mam_msg_read_context_t_map_remove_entry, HASH_DEL]

theorem HASH_FIND_lt {E : Type} (hit : E → Bool) (l : List E) (i : Nat)
    (h : HASH_FIND hit l = some i) : i < l.length := by
  obtain ⟨e, he, _⟩ := HASH_FIND_some hit l i h
  by_contra hge
  rw [List.getElem?_eq_none (Nat.le_of_not_lt hge)] at he
  exact Option.noConfusion he

theorem map_run_balance (calls : List map_call) (st : map_run_t) (hh : st.heap.no_fail) :
    (map_run st calls).map.map.length + (map_run st calls).removed + st.added.length
      = st.map.map.length + st.removed + (map_run st calls).added.length := by
  induction calls generalizing st with
  | nil => simp [map_run]
  | cons c rest ih =>
    cases c with
    | add key value =>
      obtain ⟨hrc, hheap⟩ := map_add_no_fail st.heap st.map key value hh
      have hmap := map_add_ok st.heap st.map key value hrc
      simp only [map_run]
      rcases hr : trit_t_to_mam_msg_read_context_t_map_add st.heap st.map key value
        with ⟨rc, h1, m1⟩
      rw [hr] at hheap hmap
      simp only at hheap hmap
      have := ih ⟨h1, m1, st.added ++ [memcpy key st.map.key_size], st.removed⟩ hheap
      have hlen : m1.map.length = st.map.map.length + 1 := by rw [hmap]; simp
      simp only [List.length_append, List.length_singleton] at this
      show (map_run ⟨h1, m1, st.added ++ [memcpy key st.map.key_size], st.removed⟩
          rest).map.map.length
        + (map_run ⟨h1, m1, st.added ++ [memcpy key st.map.key_size], st.removed⟩
          rest).removed + st.added.length
        = st.map.map.length + st.removed
          + (map_run ⟨h1, m1, st.added ++ [memcpy key st.map.key_size], st.removed⟩
            rest).added.length
      omega
    | remove key =>
      simp only [map_run]
      rw [map_remove_eq]
      cases hf : HASH_FIND (map_key_hit key st.map.key_size) st.map.map with
      | none =>
        have := ih ⟨st.heap, st.map, st.added, st.removed + 0⟩ hh
        simpa using this
      | some i =>
        have hlt := HASH_FIND_lt _ _ _ hf
        have := ih ⟨free (free (free st.heap)),
          ⟨st.map.key_size, st.map.value_size, st.map.map.eraseIdx i⟩, st.added,
          st.removed + 1⟩ hh
        simp only [List.length_eraseIdx, hlt, if_true] at this
        simp only [Option.getD_some, if_true]
        omega

/-- C8, as the code has it: after any sequence of calls of `add` and `remove`
on a freshly initialised map, with no allocation failing, the size is the
number of calls of `add` (whether or not their keys were present) minus the
number of calls of `remove` that returned true. -/
theorem map_size_counts_add_calls (h : heap_t) (key_size value_size : Nat)
    (calls : List map_call) (hh : h.no_fail) :
    trit_t_to_mam_msg_read_context_t_map_size
        (map_run ⟨h, (trit_t_to_mam_msg_read_context_t_map_init key_size value_size).2,
          [], 0⟩ calls).map
      = (map_run ⟨h, (trit_t_to_mam_msg_read_context_t_map_init key_size value_size).2,
          [], 0⟩ calls).added.length
        - (map_run ⟨h, (trit_t_to_mam_msg_read_context_t_map_init key_size value_size).2,
          [], 0⟩ calls).removed := by
  have := map_run_balance calls
    ⟨h, (trit_t_to_mam_msg_read_context_t_map_init key_size value_size).2, [], 0⟩ hh
  simp only [trit_t_to_mam_msg_read_context_t_map_init, List.length_nil] at this ⊢
  unfold trit_t_to_mam_msg_read_context_t_map_size HASH_COUNT
  omega

theorem map_size_counts_add_calls_witness :
    (⟨0, []⟩ : heap_t).no_fail ∧
    trit_t_to_mam_msg_read_context_t_map_size
        (map_run ⟨⟨0, []⟩, (trit_t_to_mam_msg_read_context_t_map_init 3 8).2, [], 0⟩
          [map_call.add [1, 2, 3] [0, 0, 0, 0, 0, 0, 0, 1],
           map_call.add [1, 2, 3] [0, 0, 0, 0, 0, 0, 0, 2],
           map_call.remove [1, 2, 3], map_call.remove [0, 0, 0]]).map
      = 2 - 1 :=
  ⟨by decide,
   map_size_counts_add_calls ⟨0, []⟩ 3 8
     [map_call.add [1, 2, 3] [0, 0, 0, 0, 0, 0, 0, 1],
      map_call.add [1, 2, 3] [0, 0, 0, 0, 0, 0, 0, 2],
      map_call.remove [1, 2, 3], map_call.remove [0, 0, 0]] (by decide)⟩

/-- C8 as stated fails: two calls of `add` with the same key on a fresh map,
no allocation failing and no call of `remove`, leave size 2, while one
distinct key was added. -/
theorem map_size_counts_distinct_keys_counterexample :
    (⟨0, []⟩ : heap_t).no_fail ∧
    trit_t_to_mam_msg_read_context_t_map_size
        (map_run ⟨⟨0, []⟩, (trit_t_to_mam_msg_read_context_t_map_init 3 8).2, [], 0⟩
          [map_call.add [1, 2, 3] [0, 0, 0, 0, 0, 0, 0, 1],
           map_call.add [1, 2, 3] [0, 0, 0, 0, 0, 0, 0, 2]]).map = 2 ∧
    (map_run ⟨⟨0, []⟩, (trit_t_to_mam_msg_read_context_t_map_init 3 8).2, [], 0⟩
          [map_call.add [1, 2, 3] [0, 0, 0, 0, 0, 0, 0, 1],
           map_call.add [1, 2, 3] [0, 0, 0, 0, 0, 0, 0, 2]]).added.dedup.length = 1 ∧
    (map_run ⟨⟨0, []⟩, (trit_t_to_mam_msg_read_context_t_map_init 3 8).2, [], 0⟩
          [map_call.add [1, 2, 3] [0, 0, 0, 0, 0, 0, 0, 1],
           map_call.add [1, 2, 3] [0, 0, 0, 0, 0, 0, 0, 2]]).removed = 0 ∧
    trit_t_to_mam_msg_read_context_t_map_size
        (map_run ⟨⟨0, []⟩, (trit_t_to_mam_msg_read_context_t_map_init 3 8).2, [], 0⟩
          [map_call.add [1, 2, 3] [0, 0, 0, 0, 0, 0, 0, 1],
           map_call.add [1, 2, 3] [0, 0, 0, 0, 0, 0, 0, 2]]).map
      ≠ (map_run ⟨⟨0, []⟩, (trit_t_to_mam_msg_read_context_t_map_init 3 8).2, [], 0⟩
          [map_call.add [1, 2, 3] [0, 0, 0, 0, 0, 0, 0, 1],
           map_call.add [1, 2, 3] [0, 0, 0, 0, 0, 0, 0, 2]]).added.dedup.length
        - (map_run ⟨⟨0, []⟩, (trit_t_to_mam_msg_read_context_t_map_init 3 8).2, [], 0⟩
          [map_call.add [1, 2, 3] [0, 0, 0, 0, 0, 0, 0, 1],
           map_call.add [1, 2, 3] [0, 0, 0, 0, 0, 0, 0, 2]]).removed := by
  refine ⟨by decide, by decide, by decide, by decide, by decide⟩

/-- C9: `remove` returns true exactly when some entry of the map has the key;
then one entry with that key has been unlinked, the others are as before in
their order, and the size is one less; when it returns false, for an absent
key, an empty map or no map at all, map and allocator are as before. -/
theorem map_remove_result_and_effect (h : heap_t)
    (M : trit_t_to_mam_msg_read_context_t_map_t) (k : List trit_t) :
    ((trit_t_to_mam_msg_read_context_t_map_remove h (some M) k).1 = true ↔
      ∃ e ∈ M.map, e.key = memcpy k M.key_size) ∧
    ((trit_t_to_mam_msg_read_context_t_map_remove h (some M) k).1 = true →
      ∃ i e, M.map[i]? = some e ∧ e.key = memcpy k M.key_size ∧
        (trit_t_to_mam_msg_read_context_t_map_remove h (some M) k).2.2
          = some ⟨M.key_size, M.value_size, M.map.eraseIdx i⟩ ∧
        trit_t_to_mam_msg_read_context_t_map_size
            ⟨M.key_size, M.value_size, M.map.eraseIdx i⟩ + 1
          = trit_t_to_mam_msg_read_context_t_map_size M) ∧
    ((trit_t_to_mam_msg_read_context_t_map_remove h (some M) k).1 = false →
      trit_t_to_mam_msg_read_context_t_map_remove h (some M) k = (false, h, some M)) ∧
    trit_t_to_mam_msg_read_context_t_map_remove h none k = (false, h, none) := by
  rw [map_remove_eq]
  cases hf : HASH_FIND (map_key_hit k M.key_size) M.map with
  | none =>
    have hnone := (HASH_FIND_eq_none _ _).mp hf
    refine ⟨?_, ?_, ?_, rfl⟩
    · simp only [Bool.false_eq_true, false_iff, not_exists, not_and]
      intro e he hek
      have := hnone e he
      simp [map_key_hit, hek] at this
    · intro hc; exact Bool.noConfusion hc
    · intro _; rfl
  | some i =>
    obtain ⟨e, he, hhit⟩ := HASH_FIND_some _ _ _ hf
    have hlt := HASH_FIND_lt _ _ _ hf
    have hkey : e.key = memcpy k M.key_size := by
      simpa [map_key_hit] using hhit
    refine ⟨?_, ?_, ?_, rfl⟩
    · simp only [true_iff]
      exact ⟨e, List.getElem?_mem he, hkey⟩
    · intro _
      refine ⟨i, e, he, hkey, rfl, ?_⟩
      simp only [trit_t_to_mam_msg_read_context_t_map_size, HASH_COUNT,
        List.length_eraseIdx, hlt, if_true]
      omega
    · intro hc; exact Bool.noConfusion hc

theorem map_remove_result_and_effect_witness :
    ∃ i e, ([⟨[1, 2, 3], [4]⟩, ⟨[0, 0, 1], [5]⟩] :
        List trit_t_to_mam_msg_read_context_t_map_entry_t)[i]? = some e ∧
      e.key = memcpy [0, 0, 1] 3 ∧
      (trit_t_to_mam_msg_read_context_t_map_remove ⟨6, []⟩
          (some ⟨3, 1, [⟨[1, 2, 3], [4]⟩, ⟨[0, 0, 1], [5]⟩]⟩) [0, 0, 1]).2.2
        = some ⟨3, 1, ([⟨[1, 2, 3], [4]⟩, ⟨[0, 0, 1], [5]⟩] :
            List trit_t_to_mam_msg_read_context_t_map_entry_t).eraseIdx i⟩ ∧
      trit_t_to_mam_msg_read_context_t_map_size
          ⟨3, 1, ([⟨[1, 2, 3], [4]⟩, ⟨[0, 0, 1], [5]⟩] :
            List trit_t_to_mam_msg_read_context_t_map_entry_t).eraseIdx i⟩ + 1
        = trit_t_to_mam_msg_read_context_t_map_size
          ⟨3, 1, [⟨[1, 2, 3], [4]⟩, ⟨[0, 0, 1], [5]⟩]⟩ :=
  (map_remove_result_and_effect ⟨6, []⟩ ⟨3, 1, [⟨[1, 2, 3], [4]⟩, ⟨[0, 0, 1], [5]⟩]⟩
    [0, 0, 1]).2.1 (by decide)

theorem eraseIdx_mem_of_nodup {E T : Type} (f : E → T) (l : List E) (i : Nat) (e : E)
    (hnd : (l.map f).Nodup) (hi : l[i]? = some e) (w : T) :
    w ∈ (l.eraseIdx i).map f ↔ (w ∈ l.map f ∧ w ≠ f e) := by
  induction l generalizing i with
  | nil => simp at hi
  | cons a rest ih =>
    rw [List.map_cons, List.nodup_cons] at hnd
    cases i with
    | zero =>
      simp only [List.getElem?_cons_zero, Option.some.injEq] at hi
      subst hi
      simp only [List.eraseIdx_cons_zero, List.map_cons, List.mem_cons]
      constructor
      · intro hw
        refine ⟨Or.inr hw, ?_⟩
        intro heq
        subst heq
        exact hnd.1 hw
      · rintro ⟨hw | hw, hne⟩
        · exact absurd hw hne
        · exact hw
    | succ j =>
      simp only [List.getElem?_cons_succ] at hi
      have hne : f a ≠ f e := by
        intro heq
        apply hnd.1
        rw [heq]
        exact List.mem_map.mpr ⟨e, List.getElem?_mem hi, rfl⟩
      simp only [List.eraseIdx_cons_succ, List.map_cons, List.mem_cons, ih j hnd.2 hi]
      constructor
      · rintro (hw | ⟨hw, hwe⟩)
        · subst hw; exact ⟨Or.inl rfl, hne⟩
        · exact ⟨Or.inr hw, hwe⟩
      · rintro ⟨hw | hw, hwe⟩
        · exact Or.inl hw
        · exact Or.inr ⟨hw, hwe⟩

theorem set_remove_eq {T : Type} [DecidableEq T] (h : heap_t) (S : mam_endpoint_t_set_t T)
    (v : T) :
    mam_endpoint_t_set_remove h (some S) (some v)
      = match HASH_FIND (set_value_hit v) S with
        | none => (RC_OK, h, some S)
        | some i => (RC_OK, free h, some (S.eraseIdx i)) := by
  cases S with
  | nil => simp [mam_endpoint_t_set_remove, HASH_FIND]
  | cons a rest =>
    simp only [mam_endpoint_t_set_remove, List.isEmpty_cons, Bool.not_false, if_true]
    cases hf : HASH_FIND (set_value_hit v) (a :: rest) with
    | none => simp [mam_endpoint_t_set_remove_entry]
    | some i => simp [mam_endpoint_t_set_remove_entry, HASH_DEL]

/-- C10: `remove` returns `RC_OK` whatever it is given. On a set built by the
operations of the set, the record is not contained afterwards, containment of
every other record is as before, and the size is one less if the record was
contained and as before if not; the empty set stays empty. -/
theorem set_remove_effect {T : Type} [DecidableEq T] (h : heap_t)
    (S : mam_endpoint_t_set_t T) (v : T) (hS : set_reachable S) :
    (∀ (set : Option (mam_endpoint_t_set_t T)) (value : Option T),
      (mam_endpoint_t_set_remove h set value).1 = RC_OK) ∧
    (∃ S1, (mam_endpoint_t_set_remove h (some S) (some v)).2.2 = some S1 ∧
      mam_endpoint_t_set_contains S1 v = false ∧
      (∀ w, w ≠ v → mam_endpoint_t_set_contains S1 w = mam_endpoint_t_set_contains S w) ∧
      mam_endpoint_t_set_size S1 + (if mam_endpoint_t_set_contains S v then 1 else 0)
        = mam_endpoint_t_set_size S) ∧
    mam_endpoint_t_set_remove h (some []) (some v) = (RC_OK, h, some []) := by
  have hnd := set_reachable_nodup S hS
  refine ⟨?_, ?_, rfl⟩
  · intro set value
    cases set with
    | none => rfl
    | some s =>
      cases value with
      | none => rfl
      | some w =>
        rw [set_remove_eq]
        cases HASH_FIND (set_value_hit w) s <;> rfl
  · rw [set_remove_eq]
    cases hf : HASH_FIND (set_value_hit v) S with
    | none =>
      have hnone := (HASH_FIND_eq_none _ _).mp hf
      have hc : mam_endpoint_t_set_contains S v = false := by
        rw [set_contains_eq]
        simp only [decide_eq_false_iff_not, List.mem_map, not_exists, not_and]
        intro e he hev
        have := hnone e he
        simp [set_value_hit, hev] at this
      exact ⟨S, rfl, hc, fun w _ => rfl, by simp [hc]⟩
    | some i =>
      obtain ⟨e, he, hhit⟩ := HASH_FIND_some _ _ _ hf
      have hlt := HASH_FIND_lt _ _ _ hf
      have hval : e.value = v := by simpa [set_value_hit] using hhit
      have hmem := eraseIdx_mem_of_nodup (fun x => x.value) S i e hnd he
      have hc : mam_endpoint_t_set_contains S v = true := by
        rw [set_contains_iff]
        exact List.mem_map.mpr ⟨e, List.getElem?_mem he, hval⟩
      refine ⟨S.eraseIdx i, rfl, ?_, ?_, ?_⟩
      · rw [set_contains_eq]
        simp only [decide_eq_false_iff_not]
        intro hin
        exact ((hmem v).mp hin).2 hval.symm
      · intro w hw
        rw [set_contains_eq, set_contains_eq]
        apply decide_eq_decide.mpr
        rw [hmem w]
        exact ⟨fun hx => hx.1, fun hx => ⟨hx, fun hwe => hw (hwe.trans hval)⟩⟩
      · simp only [hc, if_true, mam_endpoint_t_set_size, HASH_COUNT, List.length_eraseIdx, hlt]
        omega

theorem set_remove_effect_witness :
    set_reachable ([⟨1⟩, ⟨2⟩] : mam_endpoint_t_set_t Nat) ∧
    ∃ S1, (mam_endpoint_t_set_remove ⟨2, []⟩ (some ([⟨1⟩, ⟨2⟩] : mam_endpoint_t_set_t Nat))
        (some 1)).2.2 = some S1 ∧
      mam_endpoint_t_set_contains S1 1 = false ∧
      (∀ w, w ≠ 1 → mam_endpoint_t_set_contains S1 w
        = mam_endpoint_t_set_contains ([⟨1⟩, ⟨2⟩] : mam_endpoint_t_set_t Nat) w) ∧
      mam_endpoint_t_set_size S1
          + (if mam_endpoint_t_set_contains ([⟨1⟩, ⟨2⟩] : mam_endpoint_t_set_t Nat) 1
              then 1 else 0)
        = mam_endpoint_t_set_size ([⟨1⟩, ⟨2⟩] : mam_endpoint_t_set_t Nat) :=
  ⟨set_reachable_1_2,
   (set_remove_effect ⟨2, []⟩ ([⟨1⟩, ⟨2⟩] : mam_endpoint_t_set_t Nat) 1
     set_reachable_1_2).2.1⟩

/-! ## Free, the invariant as a count, and insertion order -/

/-- C11: `free` of a map leaves the map that `init` gives for the same sizes:
size 0, no key contained, `key_size` and `value_size` as before; `free` of a set
leaves the empty (`NULL`) handle: size 0, no record contained. A successful
`add` after `free` gives size 1 and the added element is contained, and every
`add` after `free` is the same call as on the freshly initialised container. -/
theorem free_resets_to_usable_empty {T : Type} [DecidableEq T] (h : heap_t)
    (M : trit_t_to_mam_msg_read_context_t_map_t) (S : mam_endpoint_t_set_t T) :
    ((trit_t_to_mam_msg_read_context_t_map_free h M).1 = RC_OK ∧
      (trit_t_to_mam_msg_read_context_t_map_free h M).2.2
        = (trit_t_to_mam_msg_read_context_t_map_init M.key_size M.value_size).2 ∧
      trit_t_to_mam_msg_read_context_t_map_size
        (trit_t_to_mam_msg_read_context_t_map_free h M).2.2 = 0 ∧
      (∀ k, trit_t_to_mam_msg_read_context_t_map_contains
        (some (trit_t_to_mam_msg_read_context_t_map_free h M).2.2) k = false) ∧
      (trit_t_to_mam_msg_read_context_t_map_free h M).2.2.key_size = M.key_size ∧
      (trit_t_to_mam_msg_read_context_t_map_free h M).2.2.value_size = M.value_size ∧
      (∀ (h2 : heap_t) (k : List trit_t) (v : List byte_t),
        (trit_t_to_mam_msg_read_context_t_map_add h2
          (trit_t_to_mam_msg_read_context_t_map_free h M).2.2 k v).1 = RC_OK →
        trit_t_to_mam_msg_read_context_t_map_size
          (trit_t_to_mam_msg_read_context_t_map_add h2
            (trit_t_to_mam_msg_read_context_t_map_free h M).2.2 k v).2.2 = 1 ∧
        trit_t_to_mam_msg_read_context_t_map_contains
          (some (trit_t_to_mam_msg_read_context_t_map_add h2
            (trit_t_to_mam_msg_read_context_t_map_free h M).2.2 k v).2.2) k = true)) ∧
    ((mam_endpoint_t_set_free h (some S)).2 = some [] ∧
      mam_endpoint_t_set_size ([] : mam_endpoint_t_set_t T) = 0 ∧
      (∀ v : T, mam_endpoint_t_set_contains [] v = false) ∧
      (∀ (h2 : heap_t) (v : T),
        (mam_endpoint_t_set_add h2 ([] : mam_endpoint_t_set_t T) v).1 = RC_OK →
        mam_endpoint_t_set_size (mam_endpoint_t_set_add h2 [] v).2.2 = 1 ∧
        mam_endpoint_t_set_contains (mam_endpoint_t_set_add h2 [] v).2.2 v = true)) := by
  refine ⟨⟨rfl, rfl, rfl, fun k => rfl, rfl, rfl, ?_⟩, ?_, rfl, fun v => rfl, ?_⟩
  · intro h2 k v hok
    have hmap := map_add_ok h2 (trit_t_to_mam_msg_read_context_t_map_free h M).2.2 k v hok
    rw [hmap]
    refine ⟨rfl, ?_⟩
    rw [map_contains_iff]
    simp [trit_t_to_mam_msg_read_context_t_map_free]
  · cases S with
    | nil => rfl
    | cons a rest => rfl
  · intro h2 v hok
    refine ⟨?_, set_add_ok_contains h2 [] v hok⟩
    rcases set_add_cases h2 ([] : mam_endpoint_t_set_t T) v with heq | ⟨_, _, heq⟩
    · have hc := set_add_ok_contains h2 [] v hok
      rw [heq] at hc
      exact Bool.noConfusion hc
    · rw [heq]; rfl

theorem free_resets_to_usable_empty_witness :
    trit_t_to_mam_msg_read_context_t_map_size
        (trit_t_to_mam_msg_read_context_t_map_add ⟨0, []⟩
          (trit_t_to_mam_msg_read_context_t_map_free ⟨6, []⟩
            ⟨3, 1, [⟨[1, 2, 3], [4]⟩, ⟨[0, 0, 1], [5]⟩]⟩).2.2 [1, 1, 1] [7]).2.2 = 1 ∧
    trit_t_to_mam_msg_read_context_t_map_contains
        (some (trit_t_to_mam_msg_read_context_t_map_add ⟨0, []⟩
          (trit_t_to_mam_msg_read_context_t_map_free ⟨6, []⟩
            ⟨3, 1, [⟨[1, 2, 3], [4]⟩, ⟨[0, 0, 1], [5]⟩]⟩).2.2 [1, 1, 1] [7]).2.2)
        [1, 1, 1] = true :=
  (free_resets_to_usable_empty ⟨6, []⟩ ⟨3, 1, [⟨[1, 2, 3], [4]⟩, ⟨[0, 0, 1], [5]⟩]⟩
    ([⟨1⟩, ⟨2⟩] : mam_endpoint_t_set_t Nat)).1.2.2.2.2.2.2 ⟨0, []⟩ [1, 1, 1] [7] (by decide)

/-- C12: a set built from the empty set by `add`, `remove`, `remove_entry`,
`append` and `free` holds no record in two entries; so its size is the number
of distinct records it contains. -/
theorem set_uniqueness_invariant {T : Type} [DecidableEq T] (S : mam_endpoint_t_set_t T)
    (hS : set_reachable S) :
    (∀ i j : Nat, ∀ a b : mam_endpoint_t_set_entry_t T,
      S[i]? = some a → S[j]? = some b → a.value = b.value → i = j) ∧
    (∀ v, v ∈ (S.map (fun e => e.value)).toFinset ↔ mam_endpoint_t_set_contains S v = true) ∧
    mam_endpoint_t_set_size S = (S.map (fun e => e.value)).toFinset.card := by
  have hnd := set_reachable_nodup S hS
  refine ⟨?_, ?_, ?_⟩
  · intro i j a b hi hj hab
    have hi2 : (S.map (fun e => e.value))[i]? = some a.value := by simp [hi]
    have hj2 : (S.map (fun e => e.value))[j]? = some a.value := by simp [hj, hab]
    have hlen : ∀ n : Nat, (S.map (fun e => e.value))[n]? = some a.value →
        n < (S.map (fun e => e.value)).length := by
      intro n hn
      by_contra hge
      rw [List.getElem?_eq_none (Nat.le_of_not_lt hge)] at hn
      exact Option.noConfusion hn
    have hne := List.nodup_iff_getElem?_ne_getElem?.mp hnd
    rcases Nat.lt_trichotomy i j with hlt | heq | hgt
    · exact absurd (hi2.trans hj2.symm) (hne i j hlt (hlen j hj2))
    · exact heq
    · exact absurd (hj2.trans hi2.symm) (hne j i hgt (hlen i hi2))
  · intro v
    rw [set_contains_iff, List.mem_toFinset]
  · have hcard := List.toFinset_card_of_nodup hnd
    rw [hcard]
    simp [mam_endpoint_t_set_size, HASH_COUNT]

theorem set_uniqueness_invariant_witness :
    set_reachable ([⟨1⟩, ⟨2⟩] : mam_endpoint_t_set_t Nat) ∧
    mam_endpoint_t_set_size ([⟨1⟩, ⟨2⟩] : mam_endpoint_t_set_t Nat)
      = (([⟨1⟩, ⟨2⟩] : mam_endpoint_t_set_t Nat).map (fun e => e.value)).toFinset.card :=
  ⟨set_reachable_1_2,
   (set_uniqueness_invariant ([⟨1⟩, ⟨2⟩] : mam_endpoint_t_set_t Nat) set_reachable_1_2).2.2⟩

theorem set_add_all_no_fail {T : Type} [DecidableEq T] (L : List T) (h : heap_t)
    (S : mam_endpoint_t_set_t T) (hh : h.no_fail) (hS : (S.map (fun e => e.value)).Nodup) :
    ((set_add_all h S L).2.map (fun e => e.value)).Nodup ∧
    ∀ w, w ∈ (set_add_all h S L).2.map (fun e => e.value)
      ↔ (w ∈ S.map (fun e => e.value) ∨ w ∈ L) := by
  induction L generalizing h S with
  | nil => exact ⟨hS, by simp [set_add_all]⟩
  | cons a rest ih =>
    obtain ⟨_, hheap, hmem⟩ := set_add_no_fail h S a hh
    obtain ⟨ih1, ih2⟩ := ih (mam_endpoint_t_set_add h S a).2.1
      (mam_endpoint_t_set_add h S a).2.2 hheap (set_add_nodup h S a hS)
    unfold set_add_all
    refine ⟨ih1, ?_⟩
    intro w
    rw [ih2 w, hmem w]
    simp only [List.mem_cons]
    tauto

theorem set_cmp_self {T : Type} [DecidableEq T] (S : mam_endpoint_t_set_t T) :
    mam_endpoint_t_set_cmp S S = true := by
  rw [set_cmp_iff]
  exact ⟨rfl, fun v hv => hv⟩

/-- C13: with no allocation failing, the sets built from the empty set by
adding the records of two lists with the same elements, in the order and with
the repetitions of each list, compare equal; `cmp(S, S)` is true for every `S`;
and for two different records `A`, `B`, `add(A); add(A); add(B)` gives size 2
and compares equal to `add(B); add(A)`. -/
theorem set_cmp_reflexive_order_independent {T : Type} [DecidableEq T] (h1 h2 : heap_t)
    (L1 L2 : List T) (hh1 : h1.no_fail) (hh2 : h2.no_fail)
    (hsame : ∀ v, v ∈ L1 ↔ v ∈ L2) :
    mam_endpoint_t_set_cmp (set_add_all h1 [] L1).2 (set_add_all h2 [] L2).2 = true ∧
    (∀ S : mam_endpoint_t_set_t T, mam_endpoint_t_set_cmp S S = true) ∧
    (∀ A B : T, A ≠ B →
      mam_endpoint_t_set_size (set_add_all h1 [] [A, A, B]).2 = 2 ∧
      mam_endpoint_t_set_cmp (set_add_all h1 [] [A, A, B]).2 (set_add_all h2 [] [B, A]).2
        = true) := by
  have build : ∀ (h : heap_t) (L : List T), h.no_fail →
      ((set_add_all h [] L).2.map (fun e => e.value)).Nodup ∧
      ∀ w, w ∈ (set_add_all h [] L).2.map (fun e => e.value) ↔ w ∈ L := by
    intro h L hh
    obtain ⟨a, b⟩ := set_add_all_no_fail L h ([] : mam_endpoint_t_set_t T) hh List.nodup_nil
    exact ⟨a, fun w => by rw [b w]; simp⟩
  have eqv : ∀ (La Lb : List T), (∀ v, v ∈ La ↔ v ∈ Lb) →
      mam_endpoint_t_set_cmp (set_add_all h1 [] La).2 (set_add_all h2 [] Lb).2 = true := by
    intro La Lb hab
    obtain ⟨n1, m1⟩ := build h1 La hh1
    obtain ⟨n2, m2⟩ := build h2 Lb hh2
    rw [set_cmp_iff_same_members _ _ n1 n2]
    intro v
    rw [m1 v, m2 v, hab v]
  refine ⟨eqv L1 L2 hsame, set_cmp_self, ?_⟩
  intro A B hAB
  refine ⟨?_, eqv [A, A, B] [B, A] (fun v => by simp only [List.mem_cons]; tauto)⟩
  obtain ⟨n1, m1⟩ := build h1 [A, A, B] hh1
  have hcard := List.toFinset_card_of_nodup n1
  simp only [List.length_map] at hcard
  unfold mam_endpoint_t_set_size HASH_COUNT
  rw [← hcard]
  have hfin : ((set_add_all h1 [] [A, A, B]).2.map (fun e => e.value)).toFinset
      = ({A, B} : Finset T) := by
    ext w
    rw [List.mem_toFinset, m1 w]
    simp only [List.mem_cons, Finset.mem_insert, Finset.mem_singleton]
    simp
  rw [hfin]
  exact Finset.card_pair hAB

theorem set_cmp_reflexive_order_independent_witness :
    (⟨0, []⟩ : heap_t).no_fail ∧ (⟨5, [true, true]⟩ : heap_t).no_fail ∧
    mam_endpoint_t_set_cmp (set_add_all ⟨0, []⟩ [] [4, 4, 9]).2
      (set_add_all ⟨5, [true, true]⟩ [] [9, 4]).2 = true ∧
    mam_endpoint_t_set_size (set_add_all ⟨0, []⟩ [] [4, 4, 9]).2 = 2 :=
  ⟨by decide, by decide,
   (set_cmp_reflexive_order_independent ⟨0, []⟩ ⟨5, [true, true]⟩ [4, 4, 9] [9, 4]
     (by decide) (by decide) (by intro v; simp only [List.mem_cons]; tauto)).1,
   by decide⟩

/-- C14: if the callback returns `RC_OK` on every record, `for_each` returns
`RC_OK`, having called it on the record of each entry in iteration order,
`size(S)` calls in all; on a set built by the operations of the set that is
once on every record the set contains and never on another; on the empty set
the callback is not called. -/
theorem set_for_each_visits_all {T σ : Type} [DecidableEq T] (S : mam_endpoint_t_set_t T)
    (func : σ → T → retcode_t × σ) (container : σ)
    (hfunc : ∀ c v, (func c v).1 = RC_OK) :
    mam_endpoint_t_set_for_each S func container
      = (RC_OK, container_after func S container, S.map (fun e => e.value)) ∧
    (mam_endpoint_t_set_for_each S func container).2.2.length = mam_endpoint_t_set_size S ∧
    (set_reachable S → ∀ v,
      (mam_endpoint_t_set_for_each S func container).2.2.count v
        = if mam_endpoint_t_set_contains S v then 1 else 0) ∧
    mam_endpoint_t_set_for_each ([] : mam_endpoint_t_set_t T) func container
      = (RC_OK, container, []) := by
  have main : ∀ (l : mam_endpoint_t_set_t T) (c : σ),
      mam_endpoint_t_set_for_each l func c
        = (RC_OK, container_after func l c, l.map (fun e => e.value)) := by
    intro l
    unfold mam_endpoint_t_set_for_each
    induction l with
    | nil => intro c; rfl
    | cons a rest ih =>
      intro c
      have h0 := hfunc c a.value
      unfold mam_endpoint_t_set_for_each_loop
      rcases hf : func c a.value with ⟨rc, c1⟩
      rw [hf] at h0
      simp only at h0
      subst h0
      simp only [ih c1, List.map_cons, container_after, List.foldl_cons, hf]
  refine ⟨main S container, ?_, ?_, rfl⟩
  · rw [main S container]
    simp [mam_endpoint_t_set_size, HASH_COUNT]
  · intro hS v
    have hnd := set_reachable_nodup S hS
    rw [main S container]
    by_cases hc : mam_endpoint_t_set_contains S v = true
    · simp only [hc, if_true]
      exact List.count_eq_one_of_mem hnd ((set_contains_iff S v).mp hc)
    · have hnot : v ∉ S.map (fun e => e.value) := fun hin => hc ((set_contains_iff S v).mpr hin)
      simp only [hc, Bool.false_eq_true, if_false]
      exact List.count_eq_zero_of_not_mem hnot

theorem set_for_each_visits_all_witness :
    mam_endpoint_t_set_for_each ([⟨1⟩, ⟨2⟩] : mam_endpoint_t_set_t Nat)
        (fun (c : Nat) (v : Nat) => (RC_OK, c + v)) 0 = (RC_OK, 3, [1, 2]) ∧
    (set_reachable ([⟨1⟩, ⟨2⟩] : mam_endpoint_t_set_t Nat) → ∀ v,
      (mam_endpoint_t_set_for_each ([⟨1⟩, ⟨2⟩] : mam_endpoint_t_set_t Nat)
        (fun (c : Nat) (v : Nat) => (RC_OK, c + v)) 0).2.2.count v
        = if mam_endpoint_t_set_contains ([⟨1⟩, ⟨2⟩] : mam_endpoint_t_set_t Nat) v
            then 1 else 0) :=
  ⟨(set_for_each_visits_all ([⟨1⟩, ⟨2⟩] : mam_endpoint_t_set_t Nat)
      (fun (c : Nat) (v : Nat) => (RC_OK, c + v)) 0 (fun _ _ => rfl)).1,
   (set_for_each_visits_all ([⟨1⟩, ⟨2⟩] : mam_endpoint_t_set_t Nat)
      (fun (c : Nat) (v : Nat) => (RC_OK, c + v)) 0 (fun _ _ => rfl)).2.2.1⟩

/-! ## Allocation failure -/

/-- C15: `add` on a map returns `RC_OOM` exactly when the allocation of the
entry fails, or that of the key buffer after it, or that of the value buffer
after both, and `RC_OK` otherwise; and when it returns `RC_OOM` the map is the
one before the call, so size, `contains` and `find` answer as before. -/
theorem map_add_fails_atomically (h : heap_t) (M : trit_t_to_mam_msg_read_context_t_map_t)
    (k : List trit_t) (v : List byte_t) :
    ((trit_t_to_mam_msg_read_context_t_map_add h M k v).1 = RC_OOM ↔
      ((malloc h).1 = false ∨
       ((malloc h).1 = true ∧ (malloc (malloc h).2).1 = false) ∨
       ((malloc h).1 = true ∧ (malloc (malloc h).2).1 = true ∧
          (malloc (malloc (malloc h).2).2).1 = false))) ∧
    ((trit_t_to_mam_msg_read_context_t_map_add h M k v).1 ≠ RC_OOM →
      (trit_t_to_mam_msg_read_context_t_map_add h M k v).1 = RC_OK) ∧
    ((trit_t_to_mam_msg_read_context_t_map_add h M k v).1 = RC_OOM →
      (trit_t_to_mam_msg_read_context_t_map_add h M k v).2.2 = M ∧
      trit_t_to_mam_msg_read_context_t_map_size
          (trit_t_to_mam_msg_read_context_t_map_add h M k v).2.2
        = trit_t_to_mam_msg_read_context_t_map_size M ∧
      (∀ k2, trit_t_to_mam_msg_read_context_t_map_contains
          (some (trit_t_to_mam_msg_read_context_t_map_add h M k v).2.2) k2
        = trit_t_to_mam_msg_read_context_t_map_contains (some M) k2) ∧
      (∀ k2 res, trit_t_to_mam_msg_read_context_t_map_find
          (some (trit_t_to_mam_msg_read_context_t_map_add h M k v).2.2) k2 res
        = trit_t_to_mam_msg_read_context_t_map_find (some M) k2 res)) := by
  have hsame : (trit_t_to_mam_msg_read_context_t_map_add h M k v).1 = RC_OOM →
      (trit_t_to_mam_msg_read_context_t_map_add h M k v).2.2 = M := by
    unfold trit_t_to_mam_msg_read_context_t_map_add
    rcases malloc h with ⟨b1, h1⟩
    cases b1 with
    | false => intro _; rfl
    | true =>
      simp only
      rcases malloc h1 with ⟨b2, h2⟩
      cases b2 with
      | false => intro _; rfl
      | true =>
        simp only
        rcases malloc h2 with ⟨b3, h3⟩
        cases b3 with
        | false => intro _; rfl
        | true => intro hc; simp at hc
  refine ⟨?_, ?_, ?_⟩
  · unfold trit_t_to_mam_msg_read_context_t_map_add
    rcases malloc h with ⟨b1, h1⟩
    cases b1 with
    | false => simp
    | true =>
      simp only
      rcases malloc h1 with ⟨b2, h2⟩
      cases b2 with
      | false => simp
      | true =>
        simp only
        rcases malloc h2 with ⟨b3, h3⟩
        cases b3 with
        | false => simp
        | true => simp
  · unfold trit_t_to_mam_msg_read_context_t_map_add
    rcases malloc h with ⟨b1, h1⟩
    cases b1 with
    | false => simp
    | true =>
      simp only
      rcases malloc h1 with ⟨b2, h2⟩
      cases b2 with
      | false => simp
      | true =>
        simp only
        rcases malloc h2 with ⟨b3, h3⟩
        cases b3 with
        | false => simp
        | true => simp
  · intro hoom
    rw [hsame hoom]
    exact ⟨rfl, rfl, fun _ => rfl, fun _ _ => rfl⟩

theorem map_add_fails_atomically_witness :
    (trit_t_to_mam_msg_read_context_t_map_add ⟨0, [true, true, false]⟩
        ⟨3, 1, [⟨[1, 2, 3], [4]⟩]⟩ [0, 0, 1] [5]).1 = RC_OOM ∧
    (trit_t_to_mam_msg_read_context_t_map_add ⟨0, [true, true, false]⟩
        ⟨3, 1, [⟨[1, 2, 3], [4]⟩]⟩ [0, 0, 1] [5]).2.2 = ⟨3, 1, [⟨[1, 2, 3], [4]⟩]⟩ :=
  ⟨by decide,
   ((map_add_fails_atomically ⟨0, [true, true, false]⟩ ⟨3, 1, [⟨[1, 2, 3], [4]⟩]⟩
      [0, 0, 1] [5]).2.2 (by decide)).1⟩

/-- C17: a successful `add` on a map makes the size one more, whether or not
the key is present; two successful calls of `add` with the same key on an
empty map, with any values, leave size 2, two entries holding the same key. -/
theorem map_add_never_deduplicates (h : heap_t) (M : trit_t_to_mam_msg_read_context_t_map_t)
    (k : List trit_t) (v : List byte_t)
    (hok : (trit_t_to_mam_msg_read_context_t_map_add h M k v).1 = RC_OK) :
    trit_t_to_mam_msg_read_context_t_map_size
        (trit_t_to_mam_msg_read_context_t_map_add h M k v).2.2
      = trit_t_to_mam_msg_read_context_t_map_size M + 1 ∧
    (∀ (h2 : heap_t) (v2 : List byte_t), M.map = [] →
      (trit_t_to_mam_msg_read_context_t_map_add h2
        (trit_t_to_mam_msg_read_context_t_map_add h M k v).2.2 k v2).1 = RC_OK →
      trit_t_to_mam_msg_read_context_t_map_size
        (trit_t_to_mam_msg_read_context_t_map_add h2
          (trit_t_to_mam_msg_read_context_t_map_add h M k v).2.2 k v2).2.2 = 2 ∧
      (trit_t_to_mam_msg_read_context_t_map_add h2
          (trit_t_to_mam_msg_read_context_t_map_add h M k v).2.2 k v2).2.2.map
        = [⟨memcpy k M.key_size, memcpy v M.value_size⟩,
           ⟨memcpy k M.key_size, memcpy v2 M.value_size⟩]) := by
  have hmap := map_add_ok h M k v hok
  refine ⟨?_, ?_⟩
  · rw [hmap]
    simp [trit_t_to_mam_msg_read_context_t_map_size, HASH_COUNT]
  · intro h2 v2 hempty hok2
    have hmap2 := map_add_ok h2 _ k v2 hok2
    rw [hmap2, hmap, hempty]
    exact ⟨rfl, rfl⟩

theorem map_add_never_deduplicates_witness :
    trit_t_to_mam_msg_read_context_t_map_size
        (trit_t_to_mam_msg_read_context_t_map_add ⟨3, []⟩
          (trit_t_to_mam_msg_read_context_t_map_add ⟨0, []⟩ ⟨3, 1, []⟩
            [1, 2, 3] [4]).2.2 [1, 2, 3] [5]).2.2 = 2 ∧
    (trit_t_to_mam_msg_read_context_t_map_add ⟨3, []⟩
          (trit_t_to_mam_msg_read_context_t_map_add ⟨0, []⟩ ⟨3, 1, []⟩
            [1, 2, 3] [4]).2.2 [1, 2, 3] [5]).2.2.map
      = [⟨memcpy [1, 2, 3] 3, memcpy [4] 1⟩, ⟨memcpy [1, 2, 3] 3, memcpy [5] 1⟩] :=
  (map_add_never_deduplicates ⟨0, []⟩ ⟨3, 1, []⟩ [1, 2, 3] [4] (by decide)).2
    ⟨3, []⟩ [5] rfl (by decide)

theorem set_append_loop_ok_mem {T : Type} [DecidableEq T]
    (l : List (mam_endpoint_t_set_entry_t T)) (h : heap_t) (S : mam_endpoint_t_set_t T)
    (hok : (mam_endpoint_t_set_append_loop h l S).1 = RC_OK) :
    ∀ w, w ∈ (mam_endpoint_t_set_append_loop h l S).2.2.map (fun e => e.value)
      ↔ (w ∈ l.map (fun e => e.value) ∨ w ∈ S.map (fun e => e.value)) := by
  induction l generalizing h S with
  | nil => intro w; simp [mam_endpoint_t_set_append_loop]
  | cons a rest ih =>
    have hcases := set_add_cases h S a.value
    unfold mam_endpoint_t_set_append_loop at hok ⊢
    rcases hr : mam_endpoint_t_set_add h S a.value with ⟨rc, h1, s2⟩
    rw [hr] at hok hcases
    cases rc with
    | RC_OK =>
      simp only at hok hcases ⊢
      intro w
      rw [ih h1 s2 hok w]
      have hs2 : ∀ x, x ∈ s2.map (fun e => e.value)
          ↔ (x ∈ S.map (fun e => e.value) ∨ x = a.value) := by
        intro x
        rcases hcases with heq | ⟨_, _, heq⟩
        · subst heq
          constructor
          · exact fun hx => Or.inl hx
          · rintro (hx | hx)
            · exact hx
            · have hc : mam_endpoint_t_set_contains s2 a.value = true := by
                have := set_add_ok_contains h s2 a.value (by rw [hr])
                rw [hr] at this
                exact this
              subst hx
              exact (set_contains_iff s2 a.value).mp hc
        · subst heq
          simp
      rw [hs2 w]
      simp only [List.map_cons, List.mem_cons]
      tauto
    | RC_OOM => simp at hok
    | RC_NULL_PARAM => simp at hok

theorem set_append_loop_append {T : Type} [DecidableEq T]
    (l1 l2 : List (mam_endpoint_t_set_entry_t T)) (h : heap_t) (S : mam_endpoint_t_set_t T)
    (hok : (mam_endpoint_t_set_append_loop h l1 S).1 = RC_OK) :
    mam_endpoint_t_set_append_loop h (l1 ++ l2) S
      = mam_endpoint_t_set_append_loop (mam_endpoint_t_set_append_loop h l1 S).2.1 l2
          (mam_endpoint_t_set_append_loop h l1 S).2.2 := by
  induction l1 generalizing h S with
  | nil => rfl
  | cons a rest ih =>
    have hstep : ∀ l : List (mam_endpoint_t_set_entry_t T),
        mam_endpoint_t_set_append_loop h (a :: l) S
          = match mam_endpoint_t_set_add h S a.value with
            | (RC_OK, h1, s2) => mam_endpoint_t_set_append_loop h1 l s2
            | (ret, h1, s2) => (ret, h1, s2) := by
      intro l
      rw [mam_endpoint_t_set_append_loop]
    rw [List.cons_append, hstep (rest ++ l2), hstep rest]
    rw [hstep rest] at hok
    rcases hr : mam_endpoint_t_set_add h S a.value with ⟨rc, h1, s2⟩
    rw [hr] at hok
    cases rc with
    | RC_OK => exact ih h1 s2 hok
    | RC_OOM => simp at hok
    | RC_NULL_PARAM => simp at hok

theorem list_split_at {E : Type} (l : List E) (i : Nat) (e : E) (hi : l[i]? = some e) :
    l = l.take i ++ e :: l.drop (i + 1) := by
  induction l generalizing i with
  | nil => simp at hi
  | cons a rest ih =>
    cases i with
    | zero =>
      simp only [List.getElem?_cons_zero, Option.some.injEq] at hi
      subst hi
      rfl
    | succ j =>
      simp only [List.getElem?_cons_succ] at hi
      simp only [List.take_succ_cons, List.drop_succ_cons, List.cons_append]
      rw [← ih j hi]

/-- C18: if adding the first `i` entries of `src` meets no failing allocation
and the allocation for the next entry, `e`, not contained in `dst` by then,
fails, `append` returns `RC_OOM`, and `dst` is as the first `i` calls of `add`
left it: it contains exactly its former records and those of the first `i`
entries of `src`. -/
theorem set_append_stops_at_first_failure {T : Type} [DecidableEq T] (h : heap_t)
    (src dst : mam_endpoint_t_set_t T) (i : Nat) (e : mam_endpoint_t_set_entry_t T)
    (hi : src[i]? = some e)
    (hpre : (mam_endpoint_t_set_append h (src.take i) dst).1 = RC_OK)
    (hnew : mam_endpoint_t_set_contains
      (mam_endpoint_t_set_append h (src.take i) dst).2.2 e.value = false)
    (hfail : (malloc (mam_endpoint_t_set_append h (src.take i) dst).2.1).1 = false) :
    (mam_endpoint_t_set_append h src dst).1 = RC_OOM ∧
    (mam_endpoint_t_set_append h src dst).2.2
      = (mam_endpoint_t_set_append h (src.take i) dst).2.2 ∧
    (∀ v, mam_endpoint_t_set_contains (mam_endpoint_t_set_append h src dst).2.2 v
      = (mam_endpoint_t_set_contains dst v
          || decide (v ∈ (src.take i).map (fun x => x.value)))) := by
  unfold mam_endpoint_t_set_append at hpre hnew hfail ⊢
  have hmem := set_append_loop_ok_mem (src.take i) h dst hpre
  have hrun : mam_endpoint_t_set_append_loop h src dst
      = (RC_OOM, (malloc (mam_endpoint_t_set_append_loop h (src.take i) dst).2.1).2,
          (mam_endpoint_t_set_append_loop h (src.take i) dst).2.2) := by
    conv_lhs => rw [list_split_at src i e hi]
    rw [set_append_loop_append _ _ h dst hpre]
    generalize (mam_endpoint_t_set_append_loop h (src.take i) dst).2.1 = hp at hfail ⊢
    generalize (mam_endpoint_t_set_append_loop h (src.take i) dst).2.2 = dp at hnew ⊢
    unfold mam_endpoint_t_set_append_loop
    have hadd : mam_endpoint_t_set_add hp dp e.value = (RC_OOM, (malloc hp).2, dp) := by
      unfold mam_endpoint_t_set_add
      rcases hm : malloc hp with ⟨b, hq⟩
      rw [hm] at hfail
      simp only at hfail
      subst hfail
      simp [hnew]
    rw [hadd]
  rw [hrun]
  refine ⟨rfl, rfl, ?_⟩
  intro v
  simp only
  rw [set_contains_eq, set_contains_eq, ← Bool.decide_or]
  apply decide_eq_decide.mpr
  rw [hmem v]
  tauto

theorem set_append_stops_at_first_failure_witness :
    (mam_endpoint_t_set_append ⟨0, [true, false]⟩
        ([⟨1⟩, ⟨2⟩, ⟨3⟩, ⟨4⟩] : mam_endpoint_t_set_t Nat) [⟨2⟩]).1 = RC_OOM ∧
    (mam_endpoint_t_set_append ⟨0, [true, false]⟩
        ([⟨1⟩, ⟨2⟩, ⟨3⟩, ⟨4⟩] : mam_endpoint_t_set_t Nat) [⟨2⟩]).2.2
      = (mam_endpoint_t_set_append ⟨0, [true, false]⟩
        (([⟨1⟩, ⟨2⟩, ⟨3⟩, ⟨4⟩] : mam_endpoint_t_set_t Nat).take 2) [⟨2⟩]).2.2 ∧
    (mam_endpoint_t_set_append ⟨0, [true, false]⟩
        ([⟨1⟩, ⟨2⟩, ⟨3⟩, ⟨4⟩] : mam_endpoint_t_set_t Nat) [⟨2⟩]).2.2 = [⟨2⟩, ⟨1⟩] :=
  ⟨(set_append_stops_at_first_failure ⟨0, [true, false]⟩
      ([⟨1⟩, ⟨2⟩, ⟨3⟩, ⟨4⟩] : mam_endpoint_t_set_t Nat) [⟨2⟩] 2 ⟨3⟩ rfl
      (by decide) (by decide) (by decide)).1,
   (set_append_stops_at_first_failure ⟨0, [true, false]⟩
      ([⟨1⟩, ⟨2⟩, ⟨3⟩, ⟨4⟩] : mam_endpoint_t_set_t Nat) [⟨2⟩] 2 ⟨3⟩ rfl
      (by decide) (by decide) (by decide)).2.1,
   by decide⟩

/-- C16 fails on the code: on a non-empty map or set, `find` called without an
output slot returns `RC_NULL_PARAM` through its `bool` return type, that is
true, the value it returns when it has found the key; the `bool` the caller
gets is the same in both cases. -/
theorem find_null_slot_returns_true {T : Type} [DecidableEq T]
    (key_size value_size : Nat) (a : trit_t_to_mam_msg_read_context_t_map_entry_t)
    (rest : List trit_t_to_mam_msg_read_context_t_map_entry_t) (k : List trit_t)
    (b : mam_endpoint_t_set_entry_t T) (more : List (mam_endpoint_t_set_entry_t T)) (v : T)
    (r : Option Nat) :
    trit_t_to_mam_msg_read_context_t_map_find (some ⟨key_size, value_size, a :: rest⟩) k none
      = (true, none) ∧
    (trit_t_to_mam_msg_read_context_t_map_find
        (some ⟨key_size, value_size, [⟨memcpy k key_size, []⟩]⟩) k (some r)).1 = true ∧
    mam_endpoint_t_set_find (b :: more) v none = (true, none) ∧
    (mam_endpoint_t_set_find [(⟨v⟩ : mam_endpoint_t_set_entry_t T)] v (some r)).1 = true := by
  refine ⟨rfl, ?_, rfl, ?_⟩
  · simp [trit_t_to_mam_msg_read_context_t_map_find, HASH_FIND, map_key_hit]
  · simp [mam_endpoint_t_set_find, HASH_FIND, set_value_hit]

/-- C19 fails on the code: when the allocation of the key buffer fails after
that of the entry, `add` returns `RC_OOM` with one more live block than before
the call (the entry), and when the allocation of the value buffer fails after
the other two, with two more (the entry and the key buffer). -/
theorem map_add_leaks_on_failure (live : Nat) (rest : List Bool)
    (M : trit_t_to_mam_msg_read_context_t_map_t) (k : List trit_t) (v : List byte_t) :
    trit_t_to_mam_msg_read_context_t_map_add ⟨live, true :: false :: rest⟩ M k v
      = (RC_OOM, ⟨live + 1, rest⟩, M) ∧
    trit_t_to_mam_msg_read_context_t_map_add ⟨live, true :: true :: false :: rest⟩ M k v
      = (RC_OOM, ⟨live + 2, rest⟩, M) ∧
    trit_t_to_mam_msg_read_context_t_map_add ⟨live, false :: rest⟩ M k v
      = (RC_OOM, ⟨live, rest⟩, M) :=
  ⟨rfl, rfl, rfl⟩

/-- C20: two maps of the same key size, each built from `init` by two
successful calls of `add` (one with the key `[1, 2, 3]` twice, the other with
the keys `[1, 2, 3]` and `[0, 0, 1]`), for which `cmp(lhs, rhs)` is true and
`cmp(rhs, lhs)` is false. -/
theorem map_cmp_not_symmetric :
    ∃ lhs rhs : trit_t_to_mam_msg_read_context_t_map_t,
      map_run ⟨⟨0, []⟩, (trit_t_to_mam_msg_read_context_t_map_init 3 1).2, [], 0⟩
          [map_call.add [1, 2, 3] [7], map_call.add [1, 2, 3] [8]]
        = ⟨⟨6, []⟩, lhs, [[1, 2, 3], [1, 2, 3]], 0⟩ ∧
      map_run ⟨⟨0, []⟩, (trit_t_to_mam_msg_read_context_t_map_init 3 1).2, [], 0⟩
          [map_call.add [1, 2, 3] [7], map_call.add [0, 0, 1] [8]]
        = ⟨⟨6, []⟩, rhs, [[1, 2, 3], [0, 0, 1]], 0⟩ ∧
      (trit_t_to_mam_msg_read_context_t_map_add ⟨0, []⟩
          (trit_t_to_mam_msg_read_context_t_map_init 3 1).2 [1, 2, 3] [7]).1 = RC_OK ∧
      (trit_t_to_mam_msg_read_context_t_map_add ⟨3, []⟩
          (trit_t_to_mam_msg_read_context_t_map_add ⟨0, []⟩
            (trit_t_to_mam_msg_read_context_t_map_init 3 1).2 [1, 2, 3] [7]).2.2
          [1, 2, 3] [8]) = (RC_OK, ⟨6, []⟩, lhs) ∧
      (trit_t_to_mam_msg_read_context_t_map_add ⟨3, []⟩
          (trit_t_to_mam_msg_read_context_t_map_add ⟨0, []⟩
            (trit_t_to_mam_msg_read_context_t_map_init 3 1).2 [1, 2, 3] [7]).2.2
          [0, 0, 1] [8]) = (RC_OK, ⟨6, []⟩, rhs) ∧
      lhs.key_size = rhs.key_size ∧
      trit_t_to_mam_msg_read_context_t_map_cmp lhs rhs = true ∧
      trit_t_to_mam_msg_read_context_t_map_cmp rhs lhs = false :=
  ⟨⟨3, 1, [⟨[1, 2, 3], [7]⟩, ⟨[1, 2, 3], [8]⟩]⟩, ⟨3, 1, [⟨[1, 2, 3], [7]⟩, ⟨[0, 0, 1], [8]⟩]⟩,
    by decide, by decide, by decide, by decide, by decide, rfl, by decide, by decide⟩
